import Mathlib

set_option maxRecDepth 100000

/-!
Shallow embedding of the pico-ssd1306 SSD1306 display driver
(src/ssd1306.c, src/ssd1306.h, src/lib/image.h) and proofs about it.

Modelling conventions:
* `uint8_t` and `uint16_t` values are natural numbers; a truncating C cast
  is written `% 256` or `% 65536` at the point where the C code performs it,
  and an `int16_t` store is `wrap16s`.
* The frame buffer `dev->buff` is the function `Nat → Nat` from byte index
  to stored byte.  The C code advances the malloc result one byte so that
  `dev->buff` points at the display data; index 0 of the model is that first
  display byte.  The one reserved control slot `dev->buff - 1` only ever
  carries the 0x40 framing byte of `ssd1306_show` and appears there.
* The I2C transport is a trace: each `i2c_write_blocking` call becomes one
  `List Nat` of the bytes it sends, in order, and a function's transport
  behaviour is the `List (List Nat)` of those transactions.
* `malloc` is modelled by an `Option (Nat → Nat)` argument of
  `ssd1306_init`: `none` is allocation failure, `some mem` supplies the
  (arbitrary) initial contents of the fresh block.
-/

/-- Device context, mirroring `ssd1306_t` of src/ssd1306.h.  The opaque
`i2c_inst` transport handle is not part of the model (the transport is
rendered as a trace); `buff` maps a byte index to the byte stored there. -/
structure ssd1306_t where
  width : Nat
  height : Nat
  pages : Nat
  i2c_addr : Nat
  external_vcc : Bool
  buff : Nat → Nat
  buff_size : Nat

/-- Packed monochrome image resource, mirroring `ssd1306_image_t` of
src/lib/image.h; `data` maps a byte index to the byte stored there. -/
structure ssd1306_image_t where
  width : Nat
  height : Nat
  length : Nat
  data : Nat → Nat

/-- Value of an `Int` converted to `uint16_t` (reduction modulo 2^16). -/
def u16 (i : Int) : Nat := (i % 65536).toNat

/-- Value of an `Int` stored into an `int16_t`: two's-complement wrap into
the interval [-32768, 32767]. -/
def wrap16s (i : Int) : Int := (i + 32768) % 65536 - 32768

/-- One command transaction of `write_command` (src/ssd1306.c lines 31-36):
the 0x00 control byte followed by the command byte.  The `cmd` argument has
C type `uint8_t`, hence the `% 256` conversion at the call boundary. -/
def write_command (_dev : ssd1306_t) (cmd : Nat) : List Nat :=
  [0x00, cmd % 256]

/-- Transport trace of `run_init_commands` (src/ssd1306.c lines 38-71): the
fixed bring-up command list, sent one `write_command` transaction per byte.
The hex literals are the named opcode constants of src/ssd1306.c lines
13-29, noted alongside.  `(dev.height + 65535) % 256` is the `uint8_t` cast
of the C expression `dev->height - 1` (the int subtraction followed by the
truncating store), written without `Nat` subtraction so that it also agrees
with C at `height = 0`. -/
def run_init_commands (dev : ssd1306_t) : List (List Nat) :=
  let init_commands : List Nat := [
    0xAE,                                                     -- SET_DISP (off)
    0xA8, (dev.height + 65535) % 256,                         -- SET_MUX_RATIO, height-1
    0xD3, 0x00,                                               -- SET_DISP_OFFSET
    0x40,                                                     -- SET_DISP_START_LINE
    0xA0 ||| 0x01,                                            -- SET_SEG_REMAP | 0x01
    0xC0 ||| 0x08,                                            -- SET_COM_OUT_DIR | 0x08
    0xDA, if dev.width > 2 * dev.height then 0x02 else 0x12,  -- SET_COM_PIN_CFG
    0x81, 0xFF,                                               -- SET_CONTRAST
    0xA4,                                                     -- SET_ENTIRE_ON
    0xA6,                                                     -- SET_NORM_INV
    0xD5, 0x80,                                               -- SET_DISP_CLK_DIV
    0x8D, if dev.external_vcc then 0x10 else 0x14,            -- SET_CHARGE_PUMP
    0xD9, if dev.external_vcc then 0x22 else 0xF1,            -- SET_PRECHARGE
    0xDB, 0x30,                                               -- SET_VCOM_DESEL
    0x20, 0x00,                                               -- SET_MEM_ADDR, horizontal
    0xAE ||| 0x01]                                            -- SET_DISP | 0x01 (on)
  init_commands.map (fun c => write_command dev c)

/-- Transport trace of `ssd1306_scroll_horiz_stop` (src/ssd1306.c lines
357-359): the single scroll-deactivate command 0x2E. -/
def ssd1306_scroll_horiz_stop (dev : ssd1306_t) : List (List Nat) :=
  [write_command dev 0x2E]

/-- Device initialization `ssd1306_init` (src/ssd1306.c lines 111-130).
Returns the C function's boolean result, the updated context, and the
transport trace.  `alloc` stands for the `malloc` call: on `none` the C
code stores the null result in `dev->buff` and returns `false` having sent
nothing (the total `Nat → Nat` model cannot hold a null pointer, so `buff`
keeps its previous value in that case); `some mem` supplies the contents of
the fresh block, pointer already advanced past the control slot. -/
def ssd1306_init (dev : ssd1306_t) (width height i2c_addr : Nat)
    (external_vcc : Bool) (alloc : Option (Nat → Nat)) :
    Bool × ssd1306_t × List (List Nat) :=
  let dev1 : ssd1306_t :=
    { dev with
      width := width
      height := height
      pages := height / 8
      i2c_addr := i2c_addr
      external_vcc := external_vcc
      buff_size := width * (height / 8) }
  match alloc with
  | none => (false, dev1, [])
  | some mem =>
      let dev2 := { dev1 with buff := mem }
      (true, dev2, run_init_commands dev2 ++ ssd1306_scroll_horiz_stop dev2)

/-- The `memset` of `ssd1306_clear` (src/ssd1306.c lines 148-150): bytes
[0, buff_size) become zero, anything beyond is untouched. -/
def ssd1306_clear (dev : ssd1306_t) : ssd1306_t :=
  { dev with buff := fun i => if i < dev.buff_size then 0 else dev.buff i }

/-- Transport trace of `ssd1306_show` (src/ssd1306.c lines 156-167): six
single-command transactions setting the addressing window, then one data
transaction of the 0x40 control byte (written into the reserved slot
`dev->buff - 1`) followed by the whole buffer.  As in `run_init_commands`,
`(dev.width + 65535) % 256` is the `uint8_t` store of `dev->width - 1`. -/
def ssd1306_show (dev : ssd1306_t) : List (List Nat) :=
  let data : List Nat := [
    0x21, 0x00, (dev.width + 65535) % 256,   -- SET_COL_ADDR, 0, width-1
    0x22, 0x00, (dev.pages + 65535) % 256]   -- SET_PAGE_ADDR, 0, pages-1
  data.map (fun c => write_command dev c) ++
    [0x40 :: (List.range dev.buff_size).map dev.buff]

/-- In-memory pixel write, mirroring the static `draw_pixel`
(src/ssd1306.c lines 73-82).  `y >>> 3` and `y &&& 7` are the C shorthands
for `y / 8` and `y % 8`; the C mask `~(0x01u << (y & 7))` is the 32-bit
complement of the bit mask, written here as `0xFFFFFFFF ^^^ mask`. -/
def draw_pixel (dev : ssd1306_t) (x y : Nat) (color : Bool) : ssd1306_t :=
  if x < dev.width ∧ y < dev.height then
    let idx := x + dev.width * (y >>> 3)
    let mask := 0x01 <<< (y &&& 7)
    let byte := if color then dev.buff idx ||| mask
                else dev.buff idx &&& (0xFFFFFFFF ^^^ mask)
    { dev with buff := Function.update dev.buff idx byte }
  else dev

/-- Public `ssd1306_draw_pixel` (src/ssd1306.c lines 174-176). -/
def ssd1306_draw_pixel (dev : ssd1306_t) (x y : Nat) : ssd1306_t :=
  draw_pixel dev x y true

/-- Public `ssd1306_clear_pixel` (src/ssd1306.c lines 178-180). -/
def ssd1306_clear_pixel (dev : ssd1306_t) (x y : Nat) : ssd1306_t :=
  draw_pixel dev x y false

/-- Pixel readback: bit `y % 8` of byte `x + width * (y / 8)`, the inverse
view of the addressing used by `draw_pixel`. -/
def getPixel (dev : ssd1306_t) (x y : Nat) : Bool :=
  (dev.buff (x + dev.width * (y / 8))).testBit (y % 8)

/-- Loop body of the `dy < dx` branch of `ssd1306_draw_line`
(src/ssd1306.c lines 200-210), rendered as the list of coordinate pairs
handed to `draw_pixel`, in order.  `x1`, `y1` are the `uint16_t` loop
variables (every step reduces modulo 2^16 as the C `+=` does) and `D` is
the `int16_t` accumulator (every store wraps through `wrap16s`).  The
explicit fuel only bounds the recursion: the C loop steps `x1` by one
modulo 2^16 until it meets `x2`, which takes fewer than 65536 iterations,
so a fuel of 65536 is never exhausted when the model is entered through
`ssd1306_draw_line_plots`. -/
def line_loop_x (x2 : Nat) (dx dy sx sy : Int) :
    Nat → Nat → Nat → Int → List (Nat × Nat)
  | 0, _, _, _ => []
  | fuel + 1, x1, y1, d =>
      if x1 = x2 then []
      else
        let x1n := u16 ((x1 : Int) + sx)
        let y1n := if d ≥ 0 then u16 ((y1 : Int) + sy) else y1
        let d1 := if d ≥ 0 then wrap16s (d - 2 * dx) else d
        let d2 := wrap16s (d1 + 2 * dy)
        (x1n, y1n) :: line_loop_x x2 dx dy sx sy fuel x1n y1n d2

/-- Loop body of the `dy >= dx` branch of `ssd1306_draw_line`
(src/ssd1306.c lines 211-222), with the same conventions as
`line_loop_x`. -/
def line_loop_y (y2 : Nat) (dx dy sx sy : Int) :
    Nat → Nat → Nat → Int → List (Nat × Nat)
  | 0, _, _, _ => []
  | fuel + 1, x1, y1, d =>
      if y1 = y2 then []
      else
        let y1n := u16 ((y1 : Int) + sy)
        let x1n := if d ≤ 0 then u16 ((x1 : Int) + sx) else x1
        let d1 := if d ≤ 0 then wrap16s (d + 2 * dy) else d
        let d2 := wrap16s (d1 - 2 * dx)
        (x1n, y1n) :: line_loop_y y2 dx dy sx sy fuel x1n y1n d2

/-- The list of coordinate pairs `ssd1306_draw_line` (src/ssd1306.c lines
182-223) hands to `draw_pixel`, in order.  `dx` and `dy` are the `int16_t`
variables: the initial differences wrap through `wrap16s` (the `int16_t`
store of the promoted subtraction), and the C negation `dx = -dx` is again
an `int16_t` store, hence the inner `wrap16s` on negation. -/
def ssd1306_draw_line_plots (x1 y1 x2 y2 : Nat) : List (Nat × Nat) :=
  let dx0 := wrap16s ((x2 : Int) - (x1 : Int))
  let dy0 := wrap16s ((y2 : Int) - (y1 : Int))
  let dx := if dx0 < 0 then wrap16s (-dx0) else dx0
  let sx : Int := if dx0 < 0 then -1 else 1
  let dy := if dy0 < 0 then wrap16s (-dy0) else dy0
  let sy : Int := if dy0 < 0 then -1 else 1
  (x1, y1) ::
    (if dy < dx then
      line_loop_x x2 dx dy sx sy 65536 x1 y1 (wrap16s (dy * 2 - dx))
    else
      line_loop_y y2 dx dy sx sy 65536 x1 y1 (wrap16s (dy - dx * 2)))

/-- Buffer effect of `ssd1306_draw_line`: each plotted pair goes through
`draw_pixel` with color 1, in the order of `ssd1306_draw_line_plots`. -/
def ssd1306_draw_line (dev : ssd1306_t) (x1 y1 x2 y2 : Nat) : ssd1306_t :=
  (ssd1306_draw_line_plots x1 y1 x2 y2).foldl
    (fun d p => draw_pixel d p.1 p.2 true) dev

/-- Edge loop of `ssd1306_draw_rect` (src/ssd1306.c lines 226 and 230):
the list of values taken by the `int16_t` counter `i`, starting at the
`int16_t` argument and running while `i < bound` (the `int` comparison
against `x + (int16_t) width`); the increment `i++` is an `int16_t` store,
hence the `wrap16s`.  The fuel only bounds the recursion: a terminating C
loop runs at most 65536 iterations (when `bound > 32767` the C loop never
terminates, since every `int16_t` value compares below the bound; the
theorems below restrict to terminating inputs). -/
def rect_loop (bound : Int) : Nat → Int → List Int
  | 0, _ => []
  | fuel + 1, i =>
      if i < bound then i :: rect_loop bound fuel (wrap16s (i + 1))
      else []

/-- The list of coordinate pairs `ssd1306_draw_rect` (src/ssd1306.c lines
225-234) hands to `draw_pixel`, in order.  The C loops run an `int16_t`
counter `i` from `x` (resp. `y`) while `i < x + (int16_t) width` (the
`uint16_t` argument is cast to `int16_t` in the bound, hence `wrap16s`),
and each `draw_pixel` call converts its `int` coordinate arguments to
`uint16_t`, hence `u16` at every use.  `y + height - 1` and
`x + width - 1` are the C int expressions of lines 228 and 232. -/
def ssd1306_draw_rect_plots (x y : Int) (width height : Nat) :
    List (Nat × Nat) :=
  ((rect_loop (x + wrap16s (width : Int)) 65536 x).map (fun i : Int =>
      [(u16 i, u16 y), (u16 i, u16 (y + height - 1))])).flatten ++
  ((rect_loop (y + wrap16s (height : Int)) 65536 y).map (fun i : Int =>
      [(u16 x, u16 i), (u16 (x + width - 1), u16 i)])).flatten

/-- Buffer effect of `ssd1306_draw_rect`: each plotted pair goes through
`draw_pixel` with color 1. -/
def ssd1306_draw_rect (dev : ssd1306_t) (x y : Int) (width height : Nat) :
    ssd1306_t :=
  (ssd1306_draw_rect_plots x y width height).foldl
    (fun d p => draw_pixel d p.1 p.2 true) dev

/-- Image blit `ssd1306_draw_image` (src/ssd1306.c lines 334-343): row by
row, column by column, decode the MSB-first packed source bit and hand it
to `draw_pixel`. -/
def ssd1306_draw_image (dev : ssd1306_t) (x y : Nat)
    (image : ssd1306_image_t) : ssd1306_t :=
  (List.range image.height).foldl (fun dj j =>
    (List.range image.width).foldl (fun di i =>
      let byte_index := (i + j * image.width) / 8
      let bit_index := 7 - (i % 8)
      let pixel_on := (image.data byte_index >>> bit_index) &&& 0x01 != 0
      draw_pixel di (x + i) (y + j) pixel_on) dj) dev

/-- Source-image pixel value at (i, j): byte `(i + j*width) / 8`, bit
`7 - (i % 8)`, exactly the decode expression of `ssd1306_draw_image`. -/
def imageBit (image : ssd1306_image_t) (i j : Nat) : Bool :=
  (image.data ((i + j * image.width) / 8) >>> (7 - i % 8)) &&& 0x01 != 0

/-- Transport trace of `ssd1306_scroll_horiz` (src/ssd1306.c lines
345-355): the stop command, then the eight-byte scroll setup ending in the
activate command 0x2F. -/
def ssd1306_scroll_horiz (dev : ssd1306_t) (right : Bool)
    (start_page end_page speed : Nat) : List (List Nat) :=
  ssd1306_scroll_horiz_stop dev ++
    [write_command dev (if right then 0x26 else 0x27),
     write_command dev 0x00,
     write_command dev (start_page &&& 0x07),
     write_command dev (speed &&& 0x00),
     write_command dev (end_page &&& 0x07),
     write_command dev 0x00,
     write_command dev 0xFF,
     write_command dev 0x2F]

/-- First `n` iterations of the downward page loop of
`ssd1306_scroll_row_vert` for column `col` (src/ssd1306.c lines 370-377):
returns the carry after those pages together with the updated buffer.
Iteration `n` reads byte `uint16_t idx = n * width + col` (the `uint16_t`
store truncates the `int` product modulo 2^16, hence the `% 65536`), keeps
its high bit as the new carry, and stores the byte shifted left by one with
the old carry in bit 0 (the `(uint8_t)` cast of the store is the
`% 256`). -/
def down_loop (width col : Nat) (buff : Nat → Nat) : Nat → Nat × (Nat → Nat)
  | 0 => (0, buff)
  | n + 1 =>
      let s := down_loop width col buff n
      let idx := (n * width + col) % 65536
      let byte := s.2 idx
      let new_carry := if byte &&& 0x80 ≠ 0 then 0x01 else 0
      (new_carry, Function.update s.2 idx ((byte <<< 1 ||| s.1) % 256))

/-- Column update of the downward vertical scroll: run the page loop over
all pages, then wrap the final carry into bit 0 of the page-0 byte
(src/ssd1306.c line 379; `~0x01u` is the 32-bit mask 0xFFFFFFFE). -/
def scroll_down_col (width pages col : Nat) (buff : Nat → Nat) : Nat → Nat :=
  let s := down_loop width col buff pages
  Function.update s.2 col ((s.2 col &&& 0xFFFFFFFE) ||| s.1)

/-- First `n` iterations of the upward page loop of
`ssd1306_scroll_row_vert` for column `col` (src/ssd1306.c lines 381-388):
the C loop walks pages `pages-1` down to 0, so iteration `n` (counting from
0) processes page `pages - 1 - n`, reads byte
`uint16_t idx = (uint16_t)page * width + col` (the `uint16_t` store
truncates the `int` expression modulo 2^16, hence the `% 65536`), keeps the
low bit of its byte as the new carry, and stores the byte shifted right by
one with the old carry in bit 7. -/
def up_loop (width pages col : Nat) (buff : Nat → Nat) :
    Nat → Nat × (Nat → Nat)
  | 0 => (0, buff)
  | n + 1 =>
      let s := up_loop width pages col buff n
      let idx := ((pages - 1 - n) * width + col) % 65536
      let byte := s.2 idx
      let new_carry := if byte &&& 0x01 ≠ 0 then 0x80 else 0
      (new_carry, Function.update s.2 idx ((byte >>> 1 ||| s.1) % 256))

/-- Column update of the upward vertical scroll: run the page loop over all
pages, then wrap the final carry into bit 7 of the last page's byte
(src/ssd1306.c lines 389-391; `~0x80u` is the 32-bit mask 0xFFFFFF7F).
`uint16_t last_idx = (pages - 1) * width + col` is an `int` expression
(negative when `pages = 0`) stored into a `uint16_t`, hence the signed
value reduced modulo 2^16. -/
def scroll_up_col (width pages col : Nat) (buff : Nat → Nat) : Nat → Nat :=
  let s := up_loop width pages col buff pages
  let last_idx := ((((pages : Int) - 1) * width + col) % 65536).toNat
  Function.update s.2 last_idx ((s.2 last_idx &&& 0xFFFFFF7F) ||| s.1)

/-- Software vertical scroll `ssd1306_scroll_row_vert` (src/ssd1306.c lines
361-394).  The C loop over columns is a fold; each column's iteration
touches only that column's byte indices `page * width + col`, so the fold
of the per-column updates is the loop. -/
def ssd1306_scroll_row_vert (dev : ssd1306_t) (down : Bool) : ssd1306_t :=
  let width := dev.width
  let pages := dev.height / 8
  { dev with buff :=
      (List.range width).foldl (fun b col =>
        if down then scroll_down_col width pages col b
        else scroll_up_col width pages col b) dev.buff }

/-- Number of set bits, with explicit fuel so that the recursion is
structural and evaluation definitional; `popcount_go fuel m` needs
`m ≤ fuel`, established by `popcount_rec`. -/
def popcount_go : Nat → Nat → Nat
  | _, 0 => 0
  | 0, _ + 1 => 0
  | fuel + 1, m + 1 => (m + 1) % 2 + popcount_go fuel ((m + 1) / 2)

/-- Number of set bits of a natural number. -/
def popcount (n : Nat) : Nat := popcount_go n n

/-- Total number of set pixels of the frame buffer. -/
def buff_popcount (dev : ssd1306_t) : Nat :=
  ∑ i ∈ Finset.range dev.buff_size, popcount (dev.buff i)

/-- Carry produced when a byte moves down one pixel: the C expression
`(byte & 0x80u) ? 0x01u : 0u` of src/ssd1306.c line 374.  Used to state
the closed form of the scroll loops. -/
def hib (b : Nat) : Nat := if b &&& 0x80 ≠ 0 then 0x01 else 0

/-- Carry produced when a byte moves up one pixel: the C expression
`(byte & 0x01u) ? 0x80u : 0u` of src/ssd1306.c line 385. -/
def lob (b : Nat) : Nat := if b &&& 0x01 ≠ 0 then 0x80 else 0

/-- Derived closed form of one vertical scroll step at a buffer index
(established against the loops in `scroll_row_vert_buff`): the byte shifts
by one bit and receives the carry bit of its cyclic neighbour page in the
same column. -/
def scroll_spec (down : Bool) (width pages : Nat) (buff : Nat → Nat)
    (idx : Nat) : Nat :=
  let col := idx % width
  let p := idx / width
  if down then
    ((buff idx <<< 1) % 256) ||| hib (buff (((p + pages - 1) % pages) * width + col))
  else
    (buff idx >>> 1) ||| lob (buff (((p + 1) % pages) * width + col))

/-- Concrete device used by the witness statements: a cleared 4-wide,
16-tall panel (2 pages, 8 bytes). -/
def dev_w : ssd1306_t :=
  { width := 4, height := 16, pages := 2, i2c_addr := 0x3C,
    external_vcc := false, buff := fun _ => 0, buff_size := 8 }

/-- Concrete device with some content, used by the scroll witnesses. -/
def dev_s : ssd1306_t :=
  { width := 4, height := 16, pages := 2, i2c_addr := 0x3C,
    external_vcc := false,
    buff := fun i => if i < 8 then (i + 1) * 17 else 0, buff_size := 8 }

/-- Concrete 2 x 2 image used by the image witness. -/
def img_w : ssd1306_image_t :=
  { width := 2, height := 2, length := 1, data := fun _ => 0xA0 }

/-- Device whose byte indices overflow the `uint16_t` index arithmetic of
the vertical scroll (width * pages = 98304 > 65536): a single set bit in
the byte of page 1, column 0.  During a down scroll of column 0 the page-2
index 2 * 32768 truncates to 0, so the wrapped bit lands on page 0 and is
then destroyed by the wrap line. -/
def devX : ssd1306_t :=
  { width := 32768, height := 24, pages := 3, i2c_addr := 0x3C,
    external_vcc := false,
    buff := fun i => if i = 32768 then 128 else 0, buff_size := 98304 }

/-! ## General helper lemmas -/

theorem lor_lt_256 {a b : Nat} (ha : a < 256) (hb : b < 256) : a ||| b < 256 := by
  have h : Nat.bitwise or a b < 2 ^ 8 :=
    Nat.bitwise_lt_two_pow (by norm_num [ha]) (by norm_num [hb])
  simpa [Nat.lor] using h

theorem and7_eq_mod8 (y : Nat) : y &&& 7 = y % 8 := by
  have h := Nat.and_pow_two_sub_one_eq_mod y 3
  norm_num at h
  exact h

theorem shiftRight3_eq_div8 (y : Nat) : y >>> 3 = y / 8 := by
  rw [Nat.shiftRight_eq_div_pow]

theorem and7_mod256 (n : Nat) : (n &&& 7) % 256 = n &&& 7 :=
  Nat.mod_eq_of_lt (lt_of_le_of_lt Nat.and_le_right (by norm_num))

/-- Normal form of an in-bounds `draw_pixel` write: a point update of the
byte `x + width * (y / 8)`, setting or clearing bit `y % 8`. -/
theorem draw_pixel_buff (dev : ssd1306_t) (x y : Nat) (c : Bool)
    (hx : x < dev.width) (hy : y < dev.height) :
    (draw_pixel dev x y c).buff = Function.update dev.buff
      (x + dev.width * (y / 8))
      (if c then dev.buff (x + dev.width * (y / 8)) ||| 2 ^ (y % 8)
       else dev.buff (x + dev.width * (y / 8)) &&& (0xFFFFFFFF ^^^ 2 ^ (y % 8))) := by
  unfold draw_pixel
  rw [if_pos ⟨hx, hy⟩]
  simp only [shiftRight3_eq_div8, and7_eq_mod8, Nat.shiftLeft_eq, one_mul]

/-- An in-bounds `draw_pixel` does not change the non-buffer fields. -/
theorem draw_pixel_fields (dev : ssd1306_t) (x y : Nat) (c : Bool) :
    (draw_pixel dev x y c).width = dev.width ∧
    (draw_pixel dev x y c).height = dev.height ∧
    (draw_pixel dev x y c).buff_size = dev.buff_size := by
  unfold draw_pixel
  by_cases h : x < dev.width ∧ y < dev.height <;> simp [h]

theorem testBit_set_same (b k : Nat) : (b ||| 2 ^ k).testBit k = true := by
  simp [Nat.testBit_lor, Nat.testBit_two_pow]

theorem testBit_set_other (b k j : Nat) (hjk : j ≠ k) :
    (b ||| 2 ^ k).testBit j = b.testBit j := by
  rw [Nat.testBit_lor, Nat.testBit_two_pow]
  simp [Ne.symm hjk]

theorem testBit_clear_same (b k : Nat) (hk : k < 32) :
    (b &&& (0xFFFFFFFF ^^^ 2 ^ k)).testBit k = false := by
  rw [Nat.testBit_land, Nat.testBit_xor,
    show (0xFFFFFFFF : Nat) = 2 ^ 32 - 1 by norm_num,
    Nat.testBit_two_pow_sub_one, Nat.testBit_two_pow]
  simp [hk]

theorem testBit_clear_other_lt32 (b k j : Nat) (hj : j < 32) (hjk : j ≠ k) :
    (b &&& (0xFFFFFFFF ^^^ 2 ^ k)).testBit j = b.testBit j := by
  rw [Nat.testBit_land, Nat.testBit_xor,
    show (0xFFFFFFFF : Nat) = 2 ^ 32 - 1 by norm_num,
    Nat.testBit_two_pow_sub_one, Nat.testBit_two_pow]
  simp [hj, Ne.symm hjk]

theorem testBit_clear_other (b k j : Nat) (hb : b < 256) (hjk : j ≠ k) :
    (b &&& (0xFFFFFFFF ^^^ 2 ^ k)).testBit j = b.testBit j := by
  by_cases hj : j < 32
  · exact testBit_clear_other_lt32 b k j hj hjk
  · have hbj : b.testBit j = false :=
      Nat.testBit_lt_two_pow (lt_of_lt_of_le hb (by
        calc (256 : Nat) = 2 ^ 8 := by norm_num
        _ ≤ 2 ^ j := Nat.pow_le_pow_right (by norm_num) (by omega)))
    rw [Nat.testBit_land, Nat.testBit_xor,
      show (0xFFFFFFFF : Nat) = 2 ^ 32 - 1 by norm_num,
      Nat.testBit_two_pow_sub_one, Nat.testBit_two_pow]
    simp [hbj, hj]

/-- Cancellation of the page-packed address: two in-range columns with equal
linear indices agree in both coordinates. -/
theorem addr_cancel {w a x q r : Nat} (ha : a < w) (hx : x < w)
    (h : a + w * q = x + w * r) : a = x ∧ q = r := by
  have hmod : (a + w * q) % w = (x + w * r) % w := by rw [h]
  rw [Nat.add_mul_mod_self_left, Nat.add_mul_mod_self_left] at hmod
  have hax : a = x := by rwa [Nat.mod_eq_of_lt ha, Nat.mod_eq_of_lt hx] at hmod
  subst hax
  have hqr : w * q = w * r := Nat.add_left_cancel h
  exact ⟨rfl, Nat.eq_of_mul_eq_mul_left (Nat.pos_of_ne_zero (by omega)) hqr⟩

/-- Pixel-level readback of a pixel write: `draw_pixel` changes exactly the
addressed pixel and no other pixel of any in-range column. -/
theorem getPixel_draw_pixel (dev : ssd1306_t) (x y : Nat) (c : Bool)
    (hx : x < dev.width) (hy : y < dev.height) (a b : Nat)
    (ha : a < dev.width) :
    getPixel (draw_pixel dev x y c) a b =
      if a = x ∧ b = y then c else getPixel dev a b := by
  unfold getPixel
  rw [(draw_pixel_fields dev x y c).1, draw_pixel_buff dev x y c hx hy]
  by_cases heq : a + dev.width * (b / 8) = x + dev.width * (y / 8)
  · obtain ⟨hax, hdiv⟩ := addr_cancel ha hx heq
    rw [heq, Function.update_same]
    by_cases hby : b = y
    · subst hby
      rw [if_pos (show a = x ∧ b = b from ⟨hax, rfl⟩)]
      cases c with
      | false =>
          rw [if_neg Bool.false_ne_true]
          exact testBit_clear_same _ _ (by omega)
      | true =>
          rw [if_pos rfl]
          exact testBit_set_same _ _
    · have hmod : b % 8 ≠ y % 8 := by
        intro hm
        apply hby
        have hb8 := Nat.div_add_mod b 8
        have hy8 := Nat.div_add_mod y 8
        omega
      rw [if_neg (show ¬(a = x ∧ b = y) from fun hc => hby hc.2)]
      cases c with
      | false =>
          rw [if_neg Bool.false_ne_true]
          exact testBit_clear_other_lt32 _ _ _ (by omega) hmod
      | true =>
          rw [if_pos rfl]
          exact testBit_set_other _ _ _ hmod
  · rw [Function.update_noteq heq,
      if_neg (show ¬(a = x ∧ b = y) from fun hc => heq (by rw [hc.1, hc.2]))]

/-! ## Claim theorems: pixel writes, transport traces, init failure -/

/-- C2: for x >= width or y >= height the pixel write leaves the device
(and hence the frame buffer) unchanged; for in-range coordinates it sets or
clears exactly bit `y % 8` of the byte at index `x + width * (y / 8)`,
leaves that byte's other bits alone, and changes no other byte. -/
theorem draw_pixel_set_pixel_spec (dev : ssd1306_t) (x y : Nat) (c : Bool) :
    (¬(x < dev.width ∧ y < dev.height) → draw_pixel dev x y c = dev) ∧
    (x < dev.width → y < dev.height →
      dev.buff (x + dev.width * (y / 8)) < 256 →
      (((draw_pixel dev x y c).buff (x + dev.width * (y / 8))).testBit (y % 8) = c ∧
       (∀ j, j ≠ y % 8 →
         ((draw_pixel dev x y c).buff (x + dev.width * (y / 8))).testBit j =
           (dev.buff (x + dev.width * (y / 8))).testBit j) ∧
       (∀ idx, idx ≠ x + dev.width * (y / 8) →
         (draw_pixel dev x y c).buff idx = dev.buff idx))) := by
  constructor
  · intro h
    unfold draw_pixel
    rw [if_neg h]
  · intro hx hy hb
    rw [draw_pixel_buff dev x y c hx hy]
    refine ⟨?_, ?_, ?_⟩
    · rw [Function.update_same]
      cases c with
      | false =>
          rw [if_neg Bool.false_ne_true]
          exact testBit_clear_same _ _ (by omega)
      | true =>
          rw [if_pos rfl]
          exact testBit_set_same _ _
    · intro j hj
      rw [Function.update_same]
      cases c with
      | false =>
          rw [if_neg Bool.false_ne_true]
          exact testBit_clear_other _ _ _ hb hj
      | true =>
          rw [if_pos rfl]
          exact testBit_set_other _ _ _ hj
    · intro idx hidx
      rw [Function.update_noteq hidx]

/-- Witness for `draw_pixel_set_pixel_spec` on the concrete device `dev_w`
at pixel (1, 11). -/
theorem draw_pixel_set_pixel_spec_witness :
    (1 < dev_w.width ∧ 11 < dev_w.height ∧ dev_w.buff (1 + dev_w.width * (11 / 8)) < 256) ∧
    ((draw_pixel dev_w 1 11 true).buff (1 + dev_w.width * (11 / 8))).testBit (11 % 8) = true :=
  ⟨⟨by decide, by decide, by decide⟩,
    ((draw_pixel_set_pixel_spec dev_w 1 11 true).2 (by decide) (by decide) (by decide)).1⟩

/-- C1: after a successful `ssd1306_init` at 128 x 64 and a `ssd1306_clear`,
the `ssd1306_show` transport trace is exactly six command transactions
setting the addressing window (columns [0, 127], pages [0, 7]) and then a
single data transaction: the framing byte 0x40 followed by 1024 zero data
bytes, whatever the allocator handed back in `mem`. -/
theorem show_after_init_clear_trace (dev0 : ssd1306_t) (mem : Nat → Nat) :
    ssd1306_show (ssd1306_clear (ssd1306_init dev0 128 64 0x3C false (some mem)).2.1) =
      [[0x00, 0x21], [0x00, 0x00], [0x00, 127],
       [0x00, 0x22], [0x00, 0x00], [0x00, 7],
       0x40 :: List.replicate 1024 0] := by
  have hbuf : (List.range 1024).map
      (ssd1306_clear (ssd1306_init dev0 128 64 0x3C false (some mem)).2.1).buff =
      List.replicate 1024 0 := by
    rw [List.eq_replicate_iff]
    refine ⟨by simp, ?_⟩
    intro b hb
    obtain ⟨i, hi, rfl⟩ := List.mem_map.mp hb
    have hilt : i < 1024 := List.mem_range.mp hi
    show (if i < (ssd1306_init dev0 128 64 0x3C false (some mem)).2.1.buff_size
      then 0 else _) = 0
    rw [if_pos (show i < (ssd1306_init dev0 128 64 0x3C false (some mem)).2.1.buff_size
      from by simpa [ssd1306_init] using hilt)]
  show _ ++ [0x40 :: (List.range _).map _] = _
  rw [show (ssd1306_clear (ssd1306_init dev0 128 64 0x3C false (some mem)).2.1).buff_size
    = 1024 from rfl, hbuf]
  show _ = [[0x00, 0x21], [0x00, 0x00], [0x00, 127],
       [0x00, 0x22], [0x00, 0x00], [0x00, 7]] ++ [0x40 :: List.replicate 1024 0]
  refine congrArg (fun l => l ++ [0x40 :: List.replicate 1024 0]) ?_
  rw [show (ssd1306_clear (ssd1306_init dev0 128 64 0x3C false (some mem)).2.1).width
    = 128 from rfl,
    show (ssd1306_clear (ssd1306_init dev0 128 64 0x3C false (some mem)).2.1).pages
    = 8 from rfl]
  simp [write_command]

/-- C6: every `ssd1306_scroll_horiz` trace begins with the stop command
0x2E, followed by the start opcode (0x26 right, 0x27 left) and its
parameter bytes; hence between the start sequences of any two consecutive
calls there is always a stop command. -/
theorem scroll_horiz_stop_precedes_start (dev : ssd1306_t) (right : Bool)
    (sp ep speed : Nat) :
    ssd1306_scroll_horiz dev right sp ep speed =
      [[0x00, 0x2E],
       [0x00, if right then 0x26 else 0x27],
       [0x00, 0x00],
       [0x00, sp &&& 0x07],
       [0x00, 0x00],
       [0x00, ep &&& 0x07],
       [0x00, 0x00],
       [0x00, 0xFF],
       [0x00, 0x2F]] := by
  cases right <;>
    simp [ssd1306_scroll_horiz, ssd1306_scroll_horiz_stop, write_command,
      and7_mod256, Nat.and_zero]

/-- C10: the transport trace of `ssd1306_scroll_horiz` does not depend on
the `speed` argument at all, and the interval byte actually transmitted
(the fifth transaction) is always 0, because the C code masks the speed
with `& 0x00`. -/
theorem scroll_horiz_speed_immaterial (dev : ssd1306_t) (right : Bool)
    (sp ep s1 s2 : Nat) :
    ssd1306_scroll_horiz dev right sp ep s1 =
      ssd1306_scroll_horiz dev right sp ep s2 ∧
    (ssd1306_scroll_horiz dev right sp ep s1)[4]? = some [0x00, 0x00] := by
  refine ⟨?_, ?_⟩
  · simp [ssd1306_scroll_horiz, write_command, Nat.and_zero]
  · simp [ssd1306_scroll_horiz, ssd1306_scroll_horiz_stop, write_command,
      Nat.and_zero]

/-- C7 counterexample: with a failing allocation, `ssd1306_init` does not
leave the device context unchanged — the geometry fields are overwritten
before the allocation is attempted (here width becomes 128 on a context
whose width was 0). -/
theorem init_alloc_fail_context_changed :
    (ssd1306_init
        { width := 0, height := 0, pages := 0, i2c_addr := 0,
          external_vcc := false, buff := fun _ => 0, buff_size := 0 }
        128 64 0x3C false none).2.1 ≠
      { width := 0, height := 0, pages := 0, i2c_addr := 0,
        external_vcc := false, buff := fun _ => 0, buff_size := 0 } := by
  intro h
  have h2 := congrArg ssd1306_t.width h
  simp [ssd1306_init] at h2

/-- C7 amended: if frame-buffer allocation fails during init, init returns
failure and no commands are issued on the transport (the context's
geometry fields, however, have already been overwritten, and the C code
stores the null allocation result in `buff`). -/
theorem init_alloc_fail_returns_false_no_commands (dev : ssd1306_t)
    (w h a : Nat) (ev : Bool) :
    (ssd1306_init dev w h a ev none).1 = false ∧
    (ssd1306_init dev w h a ev none).2.2 = [] :=
  ⟨rfl, rfl⟩

/-- C8 counterexample: `ssd1306_draw_rect` with height 0 does not plot a
single horizontal run in one row: at (0, 5) with width 3 it hands
`draw_pixel` pixels in the two rows 5 and 4, because the bottom edge sits
at `y + height - 1 = y - 1`; symmetrically, width 0 yields the two columns
x and x - 1. -/
theorem draw_rect_degenerate_not_single_line :
    ssd1306_draw_rect_plots 0 5 3 0 =
      [(0, 5), (0, 4), (1, 5), (1, 4), (2, 5), (2, 4)] ∧
    ssd1306_draw_rect_plots 5 0 0 3 =
      [(5, 0), (4, 0), (5, 1), (4, 1), (5, 2), (4, 2)] := by
  constructor <;> rfl

/-- Closed form of a terminating `rect_loop`: when the bound `i + n` stays
at most 32767 the `int16_t` counter never wraps and the loop takes exactly
the `n` values `i + k`. -/
theorem rect_loop_run (n : Nat) : ∀ (fuel : Nat) (i : Int), n ≤ fuel →
    -32768 ≤ i → i + n ≤ 32767 →
    rect_loop (i + n) fuel i = (List.range n).map (fun k : Nat => i + k) := by
  induction n with
  | zero =>
      intro fuel i _ _ _
      cases fuel with
      | zero => rfl
      | succ f =>
          simp only [rect_loop]
          rw [if_neg (show ¬(i < i + ((0 : Nat) : Int)) by push_cast; omega)]
          rfl
  | succ n ih =>
      intro fuel i hf h1 h2
      obtain ⟨f, rfl⟩ : ∃ f, fuel = f + 1 := ⟨fuel - 1, by omega⟩
      simp only [rect_loop]
      rw [if_pos (show i < i + ((n + 1 : Nat) : Int) by push_cast; omega)]
      rw [show wrap16s (i + 1) = i + 1 by
        unfold wrap16s
        push_cast at h2
        omega]
      rw [show (i + ((n + 1 : Nat) : Int)) = (i + 1) + ((n : Nat) : Int) by
        push_cast
        ring]
      rw [ih f (i + 1) (by omega) (by omega) (by push_cast at h2 ⊢; omega)]
      rw [List.range_succ_eq_map, List.map_cons, List.map_map]
      refine congrArg₂ _ (by push_cast; ring) ?_
      refine List.map_congr_left (fun a _ => ?_)
      show (i + 1) + ((a : Nat) : Int) = i + ((a + 1 : Nat) : Int)
      push_cast
      ring

/-- On inputs where neither C edge loop wraps its `int16_t` counter, the
plot list takes the direct two-edges form. -/
theorem draw_rect_plots_eq (x y : Int) (w h : Nat)
    (hx1 : -32768 ≤ x) (hy1 : -32768 ≤ y)
    (hw : w < 32768) (hh : h < 32768)
    (hxw : x + w ≤ 32767) (hyh : y + h ≤ 32767) :
    ssd1306_draw_rect_plots x y w h =
      ((List.range w).map (fun k : Nat =>
        [(u16 (x + k), u16 y), (u16 (x + k), u16 (y + h - 1))])).flatten ++
      ((List.range h).map (fun k : Nat =>
        [(u16 x, u16 (y + k)), (u16 (x + w - 1), u16 (y + k))])).flatten := by
  unfold ssd1306_draw_rect_plots
  rw [show wrap16s (w : Int) = (w : Int) by unfold wrap16s; omega,
    show wrap16s (h : Int) = (h : Int) by unfold wrap16s; omega,
    rect_loop_run w 65536 x (by omega) hx1 hxw,
    rect_loop_run h 65536 y (by omega) hy1 hyh,
    List.map_map, List.map_map]
  rfl

/-- Membership characterization of the `ssd1306_draw_rect` plot list on
non-wrapping inputs: the two horizontal edges in rows `y` and `y + h - 1`,
and the two vertical edges in columns `x` and `x + w - 1`. -/
theorem draw_rect_plots_mem (p : Nat × Nat) (x y : Int) (w h : Nat)
    (hx1 : -32768 ≤ x) (hy1 : -32768 ≤ y)
    (hw : w < 32768) (hh : h < 32768)
    (hxw : x + w ≤ 32767) (hyh : y + h ≤ 32767) :
    p ∈ ssd1306_draw_rect_plots x y w h ↔
      (∃ k < w, p = (u16 (x + k), u16 y) ∨ p = (u16 (x + k), u16 (y + h - 1))) ∨
      (∃ k < h, p = (u16 x, u16 (y + k)) ∨ p = (u16 (x + w - 1), u16 (y + k))) := by
  rw [draw_rect_plots_eq x y w h hx1 hy1 hw hh hxw hyh]
  rw [List.mem_append]
  constructor
  · rintro (hp | hp) <;> rw [List.mem_flatten] at hp <;>
      obtain ⟨l, hl, hpl⟩ := hp <;> rw [List.mem_map] at hl <;>
      obtain ⟨k, hk, rfl⟩ := hl <;> rw [List.mem_range] at hk <;>
      simp only [List.mem_cons, List.not_mem_nil, or_false] at hpl
    · exact Or.inl ⟨k, hk, hpl⟩
    · exact Or.inr ⟨k, hk, hpl⟩
  · rintro (⟨k, hk, hp⟩ | ⟨k, hk, hp⟩)
    · refine Or.inl (List.mem_flatten.mpr
        ⟨_, List.mem_map.mpr ⟨k, List.mem_range.mpr hk, rfl⟩, ?_⟩)
      simp only [List.mem_cons, List.not_mem_nil, or_false]
      exact hp
    · refine Or.inr (List.mem_flatten.mpr
        ⟨_, List.mem_map.mpr ⟨k, List.mem_range.mpr hk, rfl⟩, ?_⟩)
      simp only [List.mem_cons, List.not_mem_nil, or_false]
      exact hp

/-- C8 amended: on int16-range origins and non-wrapping extents (the C
edge loops bound their `int16_t` counter by `x + (int16_t) width`, so for
`width >= 32768` or `x + width > 32767` the loop runs zero times or never
terminates), a degenerate `ssd1306_draw_rect` is two parallel pixel runs,
not one: for h = 0 the plotted set consists of the horizontal runs in rows
`y` and `y - 1` (each coordinate taken as its uint16 image), and for w = 0
of the vertical runs in columns `x` and `x - 1`. -/
theorem draw_rect_degenerate_plots (x y : Int) (w h : Nat)
    (hx1 : -32768 ≤ x) (hx2 : x ≤ 32767) (hy1 : -32768 ≤ y) (hy2 : y ≤ 32767)
    (hw : w < 32768) (hxw : x + w ≤ 32767)
    (hh : h < 32768) (hyh : y + h ≤ 32767) :
    (∀ p : Nat × Nat, p ∈ ssd1306_draw_rect_plots x y w 0 ↔
      ∃ k < w, p = (u16 (x + k), u16 y) ∨ p = (u16 (x + k), u16 (y - 1))) ∧
    (∀ p : Nat × Nat, p ∈ ssd1306_draw_rect_plots x y 0 h ↔
      ∃ k < h, p = (u16 x, u16 (y + k)) ∨ p = (u16 (x - 1), u16 (y + k))) := by
  constructor <;> intro p
  case left =>
    rw [draw_rect_plots_mem p x y w 0 hx1 hy1 hw (by omega) hxw
      (by push_cast; omega)]
    constructor
    · rintro (⟨k, hk, hp⟩ | ⟨k, hk, hp⟩)
      · exact ⟨k, hk, by simpa using hp⟩
      · exact absurd hk (Nat.not_lt_zero k)
    · rintro ⟨k, hk, hp⟩
      exact Or.inl ⟨k, hk, by simpa using hp⟩
  case right =>
    rw [draw_rect_plots_mem p x y 0 h hx1 hy1 (by omega) hh
      (by push_cast; omega) hyh]
    constructor
    · rintro (⟨k, hk, hp⟩ | ⟨k, hk, hp⟩)
      · exact absurd hk (Nat.not_lt_zero k)
      · exact ⟨k, hk, by simpa using hp⟩
    · rintro ⟨k, hk, hp⟩
      exact Or.inr ⟨k, hk, by simpa using hp⟩

/-- Witness for `draw_rect_degenerate_plots` at origin (0, 5), width 3,
height 4. -/
theorem draw_rect_degenerate_plots_witness :
    ((-32768 : Int) ≤ 0 ∧ (0 : Int) ≤ 32767 ∧ (-32768 : Int) ≤ 5 ∧
      (5 : Int) ≤ 32767 ∧ (3 : Nat) < 32768 ∧
      (0 : Int) + ((3 : Nat) : Int) ≤ 32767 ∧ (4 : Nat) < 32768 ∧
      (5 : Int) + ((4 : Nat) : Int) ≤ 32767) ∧
    ((∀ p : Nat × Nat, p ∈ ssd1306_draw_rect_plots 0 5 3 0 ↔
      ∃ k : Nat, k < 3 ∧ (p = (u16 (0 + (k : Int)), u16 5) ∨
        p = (u16 (0 + (k : Int)), u16 (5 - 1)))) ∧
    (∀ p : Nat × Nat, p ∈ ssd1306_draw_rect_plots 0 5 0 4 ↔
      ∃ k : Nat, k < 4 ∧ (p = (u16 0, u16 (5 + (k : Int))) ∨
        p = (u16 (0 - 1), u16 (5 + (k : Int)))))) :=
  ⟨⟨by decide, by decide, by decide, by decide, by decide, by decide,
    by decide, by decide⟩,
    draw_rect_degenerate_plots 0 5 3 4 (by decide) (by decide) (by decide)
      (by decide) (by decide) (by decide) (by decide) (by decide)⟩

/-! ## Byte-level facts for the vertical scroll, settled by evaluation -/

theorem hib_lt2 (z : Nat) : hib z < 2 := by
  unfold hib
  split <;> norm_num

theorem lob_eq (n2 : Nat) : lob n2 = (n2 &&& 1) * 128 := by
  unfold lob
  rcases Nat.le_one_iff_eq_zero_or_eq_one.mp
      (Nat.and_le_right (n := n2) (m := 1)) with h | h <;>
    simp [h]

theorem byte_shl_lor_mod (a : Nat) (ha : a < 256) (c : Nat) (hc : c < 2) :
    ((a <<< 1) ||| c) % 256 = ((a <<< 1) % 256) ||| c := by
  revert a c
  decide

theorem byte_shl_and_fe (a : Nat) (ha : a < 256) :
    ((a <<< 1) % 256) &&& 0xFFFFFFFE = (a <<< 1) % 256 := by
  revert a
  decide

theorem byte_shr_lor_mod (a : Nat) (ha : a < 256) (c : Nat) (hc : c < 2) :
    ((a >>> 1) ||| (c * 128)) % 256 = (a >>> 1) ||| (c * 128) := by
  revert a c
  decide

theorem byte_shr_and_7f (a : Nat) (ha : a < 256) :
    (a >>> 1) &&& 0xFFFFFF7F = a >>> 1 := by
  revert a
  decide

theorem byte_rt1a (a : Nat) (ha : a < 256) (c : Nat) (hc : c < 2) :
    (((a <<< 1) % 256) ||| c) >>> 1 = a % 128 := by
  revert a c
  decide

theorem byte_rt1b (b : Nat) (hb : b < 256) (c : Nat) (hc : c < 2) :
    lob (((b <<< 1) % 256) ||| c) = c * 128 := by
  revert b c
  decide

theorem byte_rt1c (a : Nat) (ha : a < 256) :
    (a % 128) ||| (hib a * 128) = a := by
  revert a
  decide

theorem byte_rt2a (a : Nat) (ha : a < 256) (c : Nat) (hc : c < 2) :
    (((a >>> 1) ||| (c * 128)) <<< 1) % 256 = (a >>> 1) <<< 1 := by
  revert a c
  decide

theorem byte_rt2b (z : Nat) (hz : z < 256) (c : Nat) (hc : c < 2) :
    hib ((z >>> 1) ||| (c * 128)) = c := by
  revert z c
  decide

theorem byte_rt2c (a : Nat) (ha : a < 256) :
    ((a >>> 1) <<< 1) ||| (a &&& 1) = a := by
  revert a
  decide

theorem byte_pop_down (a : Nat) (ha : a < 256) (c : Nat) (hc : c < 2) :
    popcount (((a <<< 1) % 256) ||| c) + hib a = popcount a + c := by
  revert a c
  decide

theorem byte_pop_up (a : Nat) (ha : a < 256) (c : Nat) (hc : c < 2) :
    popcount ((a >>> 1) ||| (c * 128)) + (a &&& 1) = popcount a + c := by
  revert a c
  decide

/-! ## Structure of the vertical scroll loops -/

/-- Carry value entering iteration `p` of the downward page loop. -/
def dcarry (width col : Nat) (buff : Nat → Nat) : Nat → Nat
  | 0 => 0
  | p + 1 => hib (buff (p * width + col))

/-- Carry value entering iteration `m` of the upward page loop (iteration
`m` processes page `pages - 1 - m`). -/
def ucarry (width pages col : Nat) (buff : Nat → Nat) : Nat → Nat
  | 0 => 0
  | m + 1 => lob (buff ((pages - 1 - m) * width + col))

theorem col_idx_inj {w col p q : Nat} (hw : 0 < w)
    (h : p * w + col = q * w + col) : p = q :=
  Nat.eq_of_mul_eq_mul_right hw (Nat.add_right_cancel h)

/-- When the panel fits the 16-bit address space, the page-packed indices
stay below 2^16 and the `uint16_t` store of the scroll index is lossless. -/
theorem idx_fit2 {width col p n : Nat} (hcol : col < width) (hpn : p < n)
    (hfit : n * width ≤ 65536) : p * width + col < 65536 := by
  have h1 : (p + 1) * width = p * width + width := by ring
  have h2 : (p + 1) * width ≤ n * width :=
    Nat.mul_le_mul_right width (by omega)
  omega

/-- Untruncated value of the `uint16_t` store of `last_idx`
(src/ssd1306.c line 389) on a panel that fits the 16-bit address space. -/
theorem last_idx_eq (width pages col : Nat) (hp0 : 0 < pages)
    (hcol : col < width) (hfit : pages * width ≤ 65536) :
    ((((pages : Int) - 1) * width + col) % 65536).toNat =
      (pages - 1) * width + col := by
  have hx : (pages - 1) * width + col < 65536 := idx_fit2 hcol (by omega) hfit
  have hc : (((pages - 1) * width + col : Nat) : Int) =
      ((pages : Int) - 1) * width + col := by
    push_cast [Nat.cast_sub (show 1 ≤ pages by omega)]
    ring
  rw [← hc]
  omega

theorem down_loop_spec (width col : Nat) (hw : 0 < width)
    (hcol : col < width) (buff : Nat → Nat) :
    ∀ n, n * width ≤ 65536 →
      (down_loop width col buff n).1 = dcarry width col buff n ∧
      (∀ idx, (∀ p, p < n → idx ≠ p * width + col) →
        (down_loop width col buff n).2 idx = buff idx) ∧
      (∀ p, p < n → (down_loop width col buff n).2 (p * width + col) =
        ((buff (p * width + col) <<< 1) ||| dcarry width col buff p) % 256) := by
  intro n
  induction n with
  | zero =>
      exact fun _ =>
        ⟨rfl, fun idx _ => rfl, fun p hp => absurd hp (Nat.not_lt_zero p)⟩
  | succ n ih =>
      intro hfit
      obtain ⟨ihc, ihu, ihv⟩ := ih
        (le_trans (Nat.mul_le_mul_right width (Nat.le_succ n)) hfit)
      have hmod : (n * width + col) % 65536 = n * width + col :=
        Nat.mod_eq_of_lt (idx_fit2 hcol (Nat.lt_succ_self n) hfit)
      have hread : (down_loop width col buff n).2 (n * width + col) =
          buff (n * width + col) :=
        ihu _ (fun p hp hcontra =>
          absurd (col_idx_inj hw hcontra) (Ne.symm (Nat.ne_of_lt hp)))
      refine ⟨?_, ?_, ?_⟩
      · simp only [down_loop]
        rw [hmod, hread]
        rfl
      · intro idx hidx
        simp only [down_loop]
        rw [hmod, Function.update_noteq (hidx n (Nat.lt_succ_self n))]
        exact ihu idx (fun p hp => hidx p (Nat.lt_succ_of_lt hp))
      · intro p hp
        simp only [down_loop]
        rw [hmod]
        rcases Nat.lt_succ_iff_lt_or_eq.mp hp with hlt | heqn
        · rw [Function.update_noteq (fun hcontra =>
            absurd (col_idx_inj hw hcontra) (Nat.ne_of_lt hlt))]
          exact ihv p hlt
        · subst heqn
          rw [Function.update_same, hread, ihc]

theorem popcount_go_fuel : ∀ f1 f2 m : Nat, m ≤ f1 → m ≤ f2 →
    popcount_go f1 m = popcount_go f2 m := by
  intro f1
  induction f1 with
  | zero =>
      intro f2 m h1 _
      interval_cases m
      cases f2 <;> rfl
  | succ g ih =>
      intro f2 m h1 h2
      cases m with
      | zero => cases f2 <;> rfl
      | succ m0 =>
          cases f2 with
          | zero => omega
          | succ g2 =>
              show (m0 + 1) % 2 + popcount_go g ((m0 + 1) / 2) =
                (m0 + 1) % 2 + popcount_go g2 ((m0 + 1) / 2)
              rw [ih g2 ((m0 + 1) / 2) (by omega) (by omega)]

/-- Validation of `popcount`: it satisfies the binary bit-count
recurrence. -/
theorem popcount_rec (n : Nat) (hn : 0 < n) :
    popcount n = n % 2 + popcount (n / 2) := by
  cases n with
  | zero => omega
  | succ m =>
      show (m + 1) % 2 + popcount_go m ((m + 1) / 2) = _
      rw [popcount_go_fuel m ((m + 1) / 2) ((m + 1) / 2) (by omega) (by omega)]
      rfl

theorem up_loop_spec (width pages col : Nat) (hw : 0 < width)
    (hcol : col < width) (hfit : pages * width ≤ 65536) (buff : Nat → Nat) :
    ∀ n, n ≤ pages →
      (up_loop width pages col buff n).1 = ucarry width pages col buff n ∧
      (∀ idx, (∀ m, m < n → idx ≠ (pages - 1 - m) * width + col) →
        (up_loop width pages col buff n).2 idx = buff idx) ∧
      (∀ m, m < n →
        (up_loop width pages col buff n).2 ((pages - 1 - m) * width + col) =
          ((buff ((pages - 1 - m) * width + col) >>> 1) |||
            ucarry width pages col buff m) % 256) := by
  intro n
  induction n with
  | zero =>
      exact fun _ =>
        ⟨rfl, fun idx _ => rfl, fun m hm => absurd hm (Nat.not_lt_zero m)⟩
  | succ n ih =>
      intro hn
      obtain ⟨ihc, ihu, ihv⟩ := ih (Nat.le_of_succ_le hn)
      have hmod : ((pages - 1 - n) * width + col) % 65536 =
          (pages - 1 - n) * width + col :=
        Nat.mod_eq_of_lt (idx_fit2 hcol (by omega) hfit)
      have hread : (up_loop width pages col buff n).2
          ((pages - 1 - n) * width + col) = buff ((pages - 1 - n) * width + col) :=
        ihu _ (fun m hm hcontra =>
          absurd (col_idx_inj hw hcontra) (by omega))
      refine ⟨?_, ?_, ?_⟩
      · simp only [up_loop]
        rw [hmod, hread]
        rfl
      · intro idx hidx
        simp only [up_loop]
        rw [hmod, Function.update_noteq (hidx n (Nat.lt_succ_self n))]
        exact ihu idx (fun m hm => hidx m (Nat.lt_succ_of_lt hm))
      · intro m hm
        simp only [up_loop]
        rw [hmod]
        rcases Nat.lt_succ_iff_lt_or_eq.mp hm with hlt | heqn
        · rw [Function.update_noteq (fun hcontra =>
            absurd (col_idx_inj hw hcontra) (by omega))]
          exact ihv m hlt
        · subst heqn
          rw [Function.update_same, hread, ihc]

/-! ## Per-column values and frame conditions of the scroll -/

theorem down_loop_bytes (width col : Nat) (buff : Nat → Nat)
    (hb : ∀ i, buff i < 256) :
    ∀ n, (down_loop width col buff n).1 < 2 ∧
      (∀ i, (down_loop width col buff n).2 i < 256) := by
  intro n
  induction n with
  | zero => exact ⟨by show (0 : Nat) < 2; norm_num, hb⟩
  | succ n ih =>
      refine ⟨?_, ?_⟩
      · simp only [down_loop]
        split <;> norm_num
      · intro i
        simp only [down_loop]
        by_cases hi : i = (n * width + col) % 65536
        · rw [hi, Function.update_same]
          exact Nat.mod_lt _ (by norm_num)
        · rw [Function.update_noteq hi]
          exact ih.2 i

theorem up_loop_bytes (width pages col : Nat) (buff : Nat → Nat)
    (hb : ∀ i, buff i < 256) :
    ∀ n, ((up_loop width pages col buff n).1 = 0 ∨
        (up_loop width pages col buff n).1 = 128) ∧
      (∀ i, (up_loop width pages col buff n).2 i < 256) := by
  intro n
  induction n with
  | zero => exact ⟨Or.inl rfl, hb⟩
  | succ n ih =>
      refine ⟨?_, ?_⟩
      · simp only [up_loop]
        split
        · exact Or.inr rfl
        · exact Or.inl rfl
      · intro i
        simp only [up_loop]
        by_cases hi : i = ((pages - 1 - n) * width + col) % 65536
        · rw [hi, Function.update_same]
          exact Nat.mod_lt _ (by norm_num)
        · rw [Function.update_noteq hi]
          exact ih.2 i

theorem scroll_down_col_bytes (width pages col : Nat) (buff : Nat → Nat)
    (hb : ∀ i, buff i < 256) :
    ∀ i, scroll_down_col width pages col buff i < 256 := by
  intro i
  unfold scroll_down_col
  obtain ⟨hc, hv⟩ := down_loop_bytes width col buff hb pages
  by_cases hi : i = col
  · rw [hi, Function.update_same]
    exact lor_lt_256 (lt_of_le_of_lt Nat.and_le_left (hv col)) (by omega)
  · rw [Function.update_noteq hi]
    exact hv i

theorem scroll_up_col_bytes (width pages col : Nat) (buff : Nat → Nat)
    (hb : ∀ i, buff i < 256) :
    ∀ i, scroll_up_col width pages col buff i < 256 := by
  intro i
  unfold scroll_up_col
  obtain ⟨hc, hv⟩ := up_loop_bytes width pages col buff hb pages
  by_cases hi : i = ((((pages : Int) - 1) * width + col) % 65536).toNat
  · rw [hi, Function.update_same]
    refine lor_lt_256 (lt_of_le_of_lt Nat.and_le_left (hv _)) ?_
    rcases hc with h | h <;> rw [h] <;> norm_num
  · rw [Function.update_noteq hi]
    exact hv i

/-- Indices of other columns are untouched by the downward column update. -/
theorem scroll_down_col_frame (width pages col : Nat) (hw : 0 < width)
    (hcol : col < width) (hfit : pages * width ≤ 65536) (buff : Nat → Nat)
    (idx : Nat) (hidx : idx % width ≠ col) :
    scroll_down_col width pages col buff idx = buff idx := by
  have hne : ∀ p : Nat, idx ≠ p * width + col := fun p hcontra => by
    apply hidx
    rw [hcontra, Nat.mul_comm p width, Nat.mul_add_mod, Nat.mod_eq_of_lt hcol]
  unfold scroll_down_col
  rw [Function.update_noteq (by simpa using hne 0)]
  exact (down_loop_spec width col hw hcol buff pages hfit).2.1 idx
    (fun p _ => hne p)

/-- Indices of other columns are untouched by the upward column update. -/
theorem scroll_up_col_frame (width pages col : Nat) (hw : 0 < width)
    (hcol : col < width) (hp0 : 0 < pages) (hfit : pages * width ≤ 65536)
    (buff : Nat → Nat) (idx : Nat) (hidx : idx % width ≠ col) :
    scroll_up_col width pages col buff idx = buff idx := by
  have hne : ∀ p : Nat, idx ≠ p * width + col := fun p hcontra => by
    apply hidx
    rw [hcontra, Nat.mul_comm p width, Nat.mul_add_mod, Nat.mod_eq_of_lt hcol]
  unfold scroll_up_col
  rw [last_idx_eq width pages col hp0 hcol hfit,
    Function.update_noteq (hne (pages - 1))]
  exact (up_loop_spec width pages col hw hcol hfit buff pages
    (le_refl pages)).2.1 idx (fun m _ => hne (pages - 1 - m))

/-- Same-column indices beyond the page range are untouched by the downward
column update. -/
theorem scroll_down_col_frame2 (width pages col : Nat) (hw : 0 < width)
    (hcol : col < width) (hp : 0 < pages) (hfit : pages * width ≤ 65536)
    (buff : Nat → Nat) (q : Nat) (hq : pages ≤ q) :
    scroll_down_col width pages col buff (q * width + col) =
      buff (q * width + col) := by
  unfold scroll_down_col
  rw [Function.update_noteq (show q * width + col ≠ col by
    have : 0 < q * width := Nat.mul_pos (by omega) hw
    omega)]
  exact (down_loop_spec width col hw hcol buff pages hfit).2.1 _
    (fun p hple hcontra => absurd (col_idx_inj hw hcontra) (by omega))

/-- Same-column indices beyond the page range are untouched by the upward
column update. -/
theorem scroll_up_col_frame2 (width pages col : Nat) (hw : 0 < width)
    (hcol : col < width) (hp : 0 < pages) (hfit : pages * width ≤ 65536)
    (buff : Nat → Nat) (q : Nat) (hq : pages ≤ q) :
    scroll_up_col width pages col buff (q * width + col) =
      buff (q * width + col) := by
  unfold scroll_up_col
  rw [last_idx_eq width pages col hp hcol hfit,
    Function.update_noteq (fun hcontra =>
      absurd (col_idx_inj hw hcontra) (by omega))]
  exact (up_loop_spec width pages col hw hcol hfit buff pages
    (le_refl pages)).2.1 _
    (fun m hm hcontra => absurd (col_idx_inj hw hcontra) (by omega))

/-- Value of the downward column update at page `p`: the byte shifts left
and receives, in bit 0, the high bit of the cyclically previous page. -/
theorem scroll_down_col_val (width pages col : Nat) (hw : 0 < width)
    (hcol : col < width) (hp0 : 0 < pages) (hfit : pages * width ≤ 65536)
    (buff : Nat → Nat)
    (hb : ∀ i, buff i < 256) (p : Nat) (hp : p < pages) :
    scroll_down_col width pages col buff (p * width + col) =
      ((buff (p * width + col) <<< 1) % 256) |||
        hib (buff (((p + pages - 1) % pages) * width + col)) := by
  obtain ⟨m, rfl⟩ : ∃ m, pages = m + 1 := ⟨pages - 1, by omega⟩
  obtain ⟨hc, hu, hv⟩ := down_loop_spec width col hw hcol buff (m + 1) hfit
  unfold scroll_down_col
  cases p with
  | zero =>
      have hv0 := hv 0 hp0
      rw [show (0 : Nat) * width + col = col by simp] at hv0
      rw [show (0 : Nat) * width + col = col by simp]
      rw [Function.update_same, hv0, hc]
      rw [show dcarry width col buff 0 = 0 from rfl, Nat.or_zero,
        byte_shl_and_fe _ (hb col),
        show dcarry width col buff (m + 1) = hib (buff (m * width + col)) from rfl,
        show 0 + (m + 1) - 1 = m by omega,
        Nat.mod_eq_of_lt (show m < m + 1 by omega)]
  | succ p0 =>
      have hne : (p0 + 1) * width + col ≠ col := by
        have : 0 < (p0 + 1) * width := Nat.mul_pos (by omega) hw
        omega
      rw [Function.update_noteq hne, hv (p0 + 1) hp]
      rw [show p0 + 1 + (m + 1) - 1 = p0 + (m + 1) by omega,
        Nat.add_mod_right, Nat.mod_eq_of_lt (show p0 < m + 1 by omega)]
      rw [show dcarry width col buff (p0 + 1) = hib (buff (p0 * width + col))
        from rfl]
      exact byte_shl_lor_mod _ (hb _) _ (hib_lt2 _)

/-- Value of the upward column update at page `p`: the byte shifts right
and receives, in bit 7, the low bit of the cyclically next page. -/
theorem scroll_up_col_val (width pages col : Nat) (hw : 0 < width)
    (hcol : col < width) (hp0 : 0 < pages) (hfit : pages * width ≤ 65536)
    (buff : Nat → Nat)
    (hb : ∀ i, buff i < 256) (p : Nat) (hp : p < pages) :
    scroll_up_col width pages col buff (p * width + col) =
      (buff (p * width + col) >>> 1) |||
        lob (buff (((p + 1) % pages) * width + col)) := by
  obtain ⟨m, rfl⟩ : ∃ m, pages = m + 1 := ⟨pages - 1, by omega⟩
  obtain ⟨hc, hu, hv⟩ := up_loop_spec width (m + 1) col hw hcol hfit buff
    (m + 1) (le_refl (m + 1))
  unfold scroll_up_col
  rw [last_idx_eq width (m + 1) col hp0 hcol hfit]
  by_cases hlast : p = m
  · rw [hlast]
    rw [show (m + 1 - 1) * width + col = m * width + col by simp]
    rw [Function.update_same]
    have hval := hv 0 hp0
    rw [show m + 1 - 1 - 0 = m by omega] at hval
    rw [hval, hc]
    rw [show ucarry width (m + 1) col buff 0 = 0 from rfl, Nat.or_zero,
      Nat.mod_eq_of_lt (lt_of_le_of_lt
        (by rw [Nat.shiftRight_eq_div_pow]; exact Nat.div_le_self _ _)
        (hb (m * width + col))),
      byte_shr_and_7f _ (hb _)]
    rw [show ucarry width (m + 1) col buff (m + 1) =
      lob (buff ((m + 1 - 1 - m) * width + col)) from rfl]
    rw [show m + 1 - 1 - m = 0 by omega,
      show (m + 1) % (m + 1) = 0 from Nat.mod_self _]
  · have hpm : p < m := by omega
    have hne : p * width + col ≠ (m + 1 - 1) * width + col := fun hcontra => by
      have := col_idx_inj hw hcontra
      omega
    rw [Function.update_noteq hne]
    have hval := hv (m - p) (by omega)
    rw [show m + 1 - 1 - (m - p) = p by omega] at hval
    rw [hval]
    rw [show m - p = (m - p - 1) + 1 by omega]
    
    rw [show ucarry width (m + 1) col buff ((m - p - 1) + 1) =
      lob (buff ((m + 1 - 1 - (m - p - 1)) * width + col)) from rfl]
    rw [show m + 1 - 1 - (m - p - 1) = p + 1 by omega,
      show (p + 1) % (m + 1) = p + 1 from Nat.mod_eq_of_lt (by omega)]
    rw [lob_eq]
    exact byte_shr_lor_mod _ (hb _) _
      (lt_of_le_of_lt Nat.and_le_right (by norm_num))

/-! ## The column fold of the vertical scroll -/

theorem idx_decomp (i w : Nat) : i = (i / w) * w + i % w := by
  rw [Nat.mul_comm]
  exact (Nat.div_add_mod i w).symm

theorem idx_mod {w : Nat} (p col : Nat) (hcol : col < w) :
    (p * w + col) % w = col := by
  rw [Nat.mul_comm p w, Nat.mul_add_mod, Nat.mod_eq_of_lt hcol]

theorem idx_div {w : Nat} (p col : Nat) (hw : 0 < w) (hcol : col < w) :
    (p * w + col) / w = p := by
  rw [Nat.add_comm, Nat.add_mul_div_right _ _ hw, Nat.div_eq_of_lt hcol,
    Nat.zero_add]

/-- The value of one column update, phrased through `scroll_spec`. -/
theorem scroll_step_val (down : Bool) (width pages col : Nat) (hw : 0 < width)
    (hcol : col < width) (hp0 : 0 < pages) (hfit : pages * width ≤ 65536)
    (buff : Nat → Nat)
    (hb : ∀ i, buff i < 256) (p : Nat) (hp : p < pages) :
    (if down then scroll_down_col width pages col buff
      else scroll_up_col width pages col buff) (p * width + col) =
      scroll_spec down width pages buff (p * width + col) := by
  cases down with
  | false =>
      show scroll_up_col width pages col buff (p * width + col) = _
      rw [scroll_up_col_val width pages col hw hcol hp0 hfit buff hb p hp]
      unfold scroll_spec
      rw [if_neg Bool.false_ne_true, idx_mod p col hcol, idx_div p col hw hcol]
  | true =>
      show scroll_down_col width pages col buff (p * width + col) = _
      rw [scroll_down_col_val width pages col hw hcol hp0 hfit buff hb p hp]
      unfold scroll_spec
      rw [if_pos rfl, idx_mod p col hcol, idx_div p col hw hcol]

theorem scroll_step_frame (down : Bool) (width pages col : Nat) (hw : 0 < width)
    (hcol : col < width) (hp0 : 0 < pages) (hfit : pages * width ≤ 65536)
    (buff : Nat → Nat) (j : Nat) (hj : j % width ≠ col) :
    (if down then scroll_down_col width pages col buff
      else scroll_up_col width pages col buff) j = buff j := by
  cases down with
  | false => exact scroll_up_col_frame width pages col hw hcol hp0 hfit buff j hj
  | true => exact scroll_down_col_frame width pages col hw hcol hfit buff j hj

theorem scroll_step_frame2 (down : Bool) (width pages col : Nat)
    (hw : 0 < width) (hcol : col < width) (hp0 : 0 < pages)
    (hfit : pages * width ≤ 65536) (buff : Nat → Nat) (q : Nat)
    (hq : pages ≤ q) :
    (if down then scroll_down_col width pages col buff
      else scroll_up_col width pages col buff) (q * width + col) =
      buff (q * width + col) := by
  cases down with
  | false => exact scroll_up_col_frame2 width pages col hw hcol hp0 hfit buff q hq
  | true => exact scroll_down_col_frame2 width pages col hw hcol hp0 hfit buff q hq

theorem scroll_step_bytes (down : Bool) (width pages col : Nat)
    (buff : Nat → Nat) (hb : ∀ i, buff i < 256) :
    ∀ i, (if down then scroll_down_col width pages col buff
      else scroll_up_col width pages col buff) i < 256 := by
  cases down with
  | false => exact scroll_up_col_bytes width pages col buff hb
  | true => exact scroll_down_col_bytes width pages col buff hb

/-- The closed form only reads the column of its index, so it is stable
under changes to other columns. -/
theorem scroll_spec_congr (down : Bool) (width pages : Nat) (hw : 0 < width)
    (b1 b2 : Nat → Nat) (idx : Nat)
    (hagree : ∀ j, j % width = idx % width → b1 j = b2 j) :
    scroll_spec down width pages b1 idx = scroll_spec down width pages b2 idx := by
  have hcol : idx % width < width := Nat.mod_lt idx hw
  have h1 : b1 idx = b2 idx := hagree idx rfl
  have h2 : ∀ q : Nat, b1 (q * width + idx % width) =
      b2 (q * width + idx % width) := fun q =>
    hagree _ (idx_mod q (idx % width) hcol)
  unfold scroll_spec
  cases down with
  | false =>
      rw [if_neg Bool.false_ne_true, if_neg Bool.false_ne_true, h1, h2]
  | true =>
      rw [if_pos rfl, if_pos rfl, h1, h2]

theorem scroll_fold_spec (down : Bool) (width pages : Nat) (hpages : 0 < pages)
    (hfit : pages * width ≤ 65536) :
    ∀ L : List Nat, L.Nodup → (∀ c ∈ L, c < width) →
    ∀ buff : Nat → Nat, (∀ i, buff i < 256) → ∀ i : Nat,
      (L.foldl (fun b col =>
        if down then scroll_down_col width pages col b
        else scroll_up_col width pages col b) buff) i =
      if i % width ∈ L ∧ i / width < pages
      then scroll_spec down width pages buff i
      else buff i := by
  intro L
  induction L with
  | nil =>
      intro _ _ buff hb i
      simp
  | cons c L ih =>
      intro hnd hcs buff hb i
      have hcw : c < width := hcs c (List.mem_cons_self c L)
      have hw : 0 < width := by omega
      have hndL : L.Nodup := (List.nodup_cons.mp hnd).2
      have hcnot : c ∉ L := (List.nodup_cons.mp hnd).1
      have hb1 : ∀ j, (if down then scroll_down_col width pages c buff
          else scroll_up_col width pages c buff) j < 256 :=
        scroll_step_bytes down width pages c buff hb
      rw [List.foldl_cons,
        ih hndL (fun d hd => hcs d (List.mem_cons_of_mem c hd)) _ hb1 i]
      by_cases hpage : i / width < pages
      · by_cases hmem : i % width ∈ L
        · have hne : i % width ≠ c := fun h => hcnot (h ▸ hmem)
          rw [if_pos ⟨hmem, hpage⟩,
            if_pos (show i % width ∈ c :: L ∧ i / width < pages from
              ⟨List.mem_cons_of_mem c hmem, hpage⟩)]
          exact scroll_spec_congr down width pages hw _ _ i
            (fun j hj => scroll_step_frame down width pages c hw hcw hpages
              hfit buff j (hj ▸ hne))
        · by_cases hceq : i % width = c
          · rw [if_neg (show ¬(i % width ∈ L ∧ i / width < pages) from
              fun h => hmem h.1),
              if_pos (show i % width ∈ c :: L ∧ i / width < pages from
                ⟨by rw [hceq]; exact List.mem_cons_self c L, hpage⟩)]
            have hdecomp : i = i / width * width + c := by
              rw [← hceq]
              exact idx_decomp i width
            calc (if down then scroll_down_col width pages c buff
                else scroll_up_col width pages c buff) i
                = (if down then scroll_down_col width pages c buff
                  else scroll_up_col width pages c buff)
                    (i / width * width + c) := by rw [← hdecomp]
              _ = scroll_spec down width pages buff (i / width * width + c) :=
                  scroll_step_val down width pages c hw hcw hpages hfit buff hb
                    (i / width) hpage
              _ = scroll_spec down width pages buff i := by rw [← hdecomp]
          · rw [if_neg (show ¬(i % width ∈ L ∧ i / width < pages) from
              fun h => hmem h.1),
              if_neg (show ¬(i % width ∈ c :: L ∧ i / width < pages) from
                fun h => (List.mem_cons.mp h.1).elim hceq hmem)]
            exact scroll_step_frame down width pages c hw hcw hpages hfit
              buff i hceq
      · rw [if_neg (show ¬(i % width ∈ L ∧ i / width < pages) from
          fun h => hpage h.2),
          if_neg (show ¬(i % width ∈ c :: L ∧ i / width < pages) from
            fun h => hpage h.2)]
        by_cases hceq : i % width = c
        · have hdecomp : i = i / width * width + c := by
            rw [← hceq]
            exact idx_decomp i width
          calc (if down then scroll_down_col width pages c buff
              else scroll_up_col width pages c buff) i
              = (if down then scroll_down_col width pages c buff
                else scroll_up_col width pages c buff)
                  (i / width * width + c) := by rw [← hdecomp]
            _ = buff (i / width * width + c) :=
                scroll_step_frame2 down width pages c hw hcw hpages hfit buff
                  (i / width) (Nat.le_of_not_lt hpage)
            _ = buff i := by rw [← hdecomp]
        · exact scroll_step_frame down width pages c hw hcw hpages hfit
            buff i hceq

/-- Pointwise characterization of the vertical scroll: inside the panel
every byte takes its `scroll_spec` value, outside nothing changes. -/
theorem scroll_row_vert_buff (dev : ssd1306_t) (down : Bool)
    (hb : ∀ i, dev.buff i < 256) (hpages : 0 < dev.height / 8)
    (hfit : (dev.height / 8) * dev.width ≤ 65536) (i : Nat) :
    (ssd1306_scroll_row_vert dev down).buff i =
      if i % dev.width < dev.width ∧ i / dev.width < dev.height / 8
      then scroll_spec down dev.width (dev.height / 8) dev.buff i
      else dev.buff i := by
  show (List.range dev.width).foldl _ dev.buff i = _
  rw [scroll_fold_spec down dev.width (dev.height / 8) hpages hfit
    (List.range dev.width) (List.nodup_range dev.width)
    (fun c hc => List.mem_range.mp hc) dev.buff hb i]
  simp only [List.mem_range]

theorem scroll_row_vert_bytes (dev : ssd1306_t) (down : Bool)
    (hb : ∀ i, dev.buff i < 256) :
    ∀ i, (ssd1306_scroll_row_vert dev down).buff i < 256 := by
  show ∀ i, (List.range dev.width).foldl _ dev.buff i < 256
  generalize List.range dev.width = L
  induction L generalizing dev with
  | nil => exact hb
  | cons c L ih =>
      intro i
      rw [List.foldl_cons]
      exact ih { dev with buff := fun j => (if down
          then scroll_down_col dev.width (dev.height / 8) c dev.buff
          else scroll_up_col dev.width (dev.height / 8) c dev.buff) j }
        (fun j => scroll_step_bytes down dev.width (dev.height / 8) c dev.buff
          hb j) i

/-! ## Round trip of the vertical scroll -/

theorem scroll_row_vert_width (dev : ssd1306_t) (d : Bool) :
    (ssd1306_scroll_row_vert dev d).width = dev.width := rfl

theorem scroll_row_vert_height (dev : ssd1306_t) (d : Bool) :
    (ssd1306_scroll_row_vert dev d).height = dev.height := rfl

theorem scroll_row_vert_buff_size (dev : ssd1306_t) (d : Bool) :
    (ssd1306_scroll_row_vert dev d).buff_size = dev.buff_size := rfl

theorem ssd1306_t_ext {d1 d2 : ssd1306_t}
    (h1 : d1.width = d2.width) (h2 : d1.height = d2.height)
    (h3 : d1.pages = d2.pages) (h4 : d1.i2c_addr = d2.i2c_addr)
    (h5 : d1.external_vcc = d2.external_vcc) (h6 : d1.buff = d2.buff)
    (h7 : d1.buff_size = d2.buff_size) : d1 = d2 := by
  cases d1
  cases d2
  simp only [ssd1306_t.mk.injEq]
  exact ⟨h1, h2, h3, h4, h5, h6, h7⟩

theorem cyc_succ_pred (p P : Nat) (hP : 0 < P) (hp : p < P) :
    ((p + 1) % P + P - 1) % P = p := by
  by_cases h : p + 1 < P
  · rw [Nat.mod_eq_of_lt h, show p + 1 + P - 1 = p + P by omega,
      Nat.add_mod_right, Nat.mod_eq_of_lt hp]
  · have hpe : p + 1 = P := by omega
    rw [hpe, Nat.mod_self, show 0 + P - 1 = p by omega, Nat.mod_eq_of_lt hp]

theorem cyc_pred_succ (p P : Nat) (hP : 0 < P) (hp : p < P) :
    ((p + P - 1) % P + 1) % P = p := by
  cases p with
  | zero =>
      rw [show 0 + P - 1 = P - 1 by omega,
        Nat.mod_eq_of_lt (show P - 1 < P by omega),
        show P - 1 + 1 = P by omega, Nat.mod_self]
  | succ p0 =>
      rw [show p0 + 1 + P - 1 = p0 + P by omega, Nat.add_mod_right,
        Nat.mod_eq_of_lt (show p0 < P by omega), Nat.mod_eq_of_lt hp]

/-- Scrolling down one pixel and then up one pixel restores the buffer. -/
theorem scroll_down_then_up (dev : ssd1306_t) (hb : ∀ i, dev.buff i < 256)
    (hpages : 0 < dev.height / 8)
    (hfit : (dev.height / 8) * dev.width ≤ 65536) :
    ssd1306_scroll_row_vert (ssd1306_scroll_row_vert dev true) false = dev := by
  have hb1 : ∀ i, (ssd1306_scroll_row_vert dev true).buff i < 256 :=
    scroll_row_vert_bytes dev true hb
  have hd1 : ∀ j, j % dev.width < dev.width → j / dev.width < dev.height / 8 →
      (ssd1306_scroll_row_vert dev true).buff j =
        ((dev.buff j <<< 1) % 256) |||
          hib (dev.buff ((( j / dev.width + dev.height / 8 - 1) %
            (dev.height / 8)) * dev.width + j % dev.width)) := by
    intro j hj1 hj2
    rw [scroll_row_vert_buff dev true hb hpages hfit j, if_pos ⟨hj1, hj2⟩]
    unfold scroll_spec
    rw [if_pos rfl]
  refine ssd1306_t_ext rfl rfl rfl rfl rfl ?_ rfl
  funext i
  rw [scroll_row_vert_buff (ssd1306_scroll_row_vert dev true) false hb1 hpages
    hfit i]
  simp only [scroll_row_vert_width, scroll_row_vert_height]
  by_cases hcond : i % dev.width < dev.width ∧ i / dev.width < dev.height / 8
  · obtain ⟨hcol, hp⟩ := hcond
    have hw : 0 < dev.width := by omega
    rw [if_pos ⟨hcol, hp⟩]
    show scroll_spec false dev.width (dev.height / 8)
      (ssd1306_scroll_row_vert dev true).buff i = dev.buff i
    unfold scroll_spec
    rw [if_neg Bool.false_ne_true]
    have hJ1 : (((i / dev.width + 1) % (dev.height / 8)) * dev.width +
        i % dev.width) % dev.width = i % dev.width :=
      idx_mod _ _ hcol
    have hJ2 : (((i / dev.width + 1) % (dev.height / 8)) * dev.width +
        i % dev.width) / dev.width = (i / dev.width + 1) % (dev.height / 8) :=
      idx_div _ _ hw hcol
    rw [hd1 i hcol hp, hd1 _ (by rw [hJ1]; exact hcol)
      (by rw [hJ2]; exact Nat.mod_lt _ hpages)]
    rw [hJ1, hJ2, cyc_succ_pred (i / dev.width) (dev.height / 8) hpages hp,
      ← idx_decomp i dev.width]
    rw [byte_rt1a _ (hb i) _ (hib_lt2 _), byte_rt1b _ (hb _) _ (hib_lt2 _),
      byte_rt1c _ (hb i)]
  · rw [if_neg hcond, scroll_row_vert_buff dev true hb hpages hfit i,
      if_neg hcond]

/-- Scrolling up one pixel and then down one pixel restores the buffer. -/
theorem scroll_up_then_down (dev : ssd1306_t) (hb : ∀ i, dev.buff i < 256)
    (hpages : 0 < dev.height / 8)
    (hfit : (dev.height / 8) * dev.width ≤ 65536) :
    ssd1306_scroll_row_vert (ssd1306_scroll_row_vert dev false) true = dev := by
  have hb1 : ∀ i, (ssd1306_scroll_row_vert dev false).buff i < 256 :=
    scroll_row_vert_bytes dev false hb
  have hd1 : ∀ j, j % dev.width < dev.width → j / dev.width < dev.height / 8 →
      (ssd1306_scroll_row_vert dev false).buff j =
        (dev.buff j >>> 1) |||
          lob (dev.buff (((j / dev.width + 1) % (dev.height / 8)) * dev.width +
            j % dev.width)) := by
    intro j hj1 hj2
    rw [scroll_row_vert_buff dev false hb hpages hfit j, if_pos ⟨hj1, hj2⟩]
    unfold scroll_spec
    rw [if_neg Bool.false_ne_true]
  refine ssd1306_t_ext rfl rfl rfl rfl rfl ?_ rfl
  funext i
  rw [scroll_row_vert_buff (ssd1306_scroll_row_vert dev false) true hb1 hpages
    hfit i]
  simp only [scroll_row_vert_width, scroll_row_vert_height]
  by_cases hcond : i % dev.width < dev.width ∧ i / dev.width < dev.height / 8
  · obtain ⟨hcol, hp⟩ := hcond
    have hw : 0 < dev.width := by omega
    rw [if_pos ⟨hcol, hp⟩]
    show scroll_spec true dev.width (dev.height / 8)
      (ssd1306_scroll_row_vert dev false).buff i = dev.buff i
    unfold scroll_spec
    rw [if_pos rfl]
    have hK1 : (((i / dev.width + dev.height / 8 - 1) % (dev.height / 8)) *
        dev.width + i % dev.width) % dev.width = i % dev.width :=
      idx_mod _ _ hcol
    have hK2 : (((i / dev.width + dev.height / 8 - 1) % (dev.height / 8)) *
        dev.width + i % dev.width) / dev.width =
        (i / dev.width + dev.height / 8 - 1) % (dev.height / 8) :=
      idx_div _ _ hw hcol
    rw [hd1 i hcol hp, hd1 _ (by rw [hK1]; exact hcol)
      (by rw [hK2]; exact Nat.mod_lt _ hpages)]
    rw [hK1, hK2, cyc_pred_succ (i / dev.width) (dev.height / 8) hpages hp,
      ← idx_decomp i dev.width]
    rw [lob_eq (dev.buff (((i / dev.width + 1) % (dev.height / 8)) *
        dev.width + i % dev.width)), lob_eq (dev.buff i)]
    rw [byte_rt2a _ (hb i) _ (lt_of_le_of_lt Nat.and_le_right one_lt_two),
      byte_rt2b _ (hb _) _ (lt_of_le_of_lt Nat.and_le_right one_lt_two),
      byte_rt2c _ (hb i)]
  · rw [if_neg hcond, scroll_row_vert_buff dev false hb hpages hfit i,
      if_neg hcond]

/-- One vertical scroll in either direction is undone by one scroll in the
opposite direction. -/
theorem scroll_row_vert_inv (dev : ssd1306_t) (d : Bool)
    (hb : ∀ i, dev.buff i < 256) (hpages : 0 < dev.height / 8)
    (hfit : (dev.height / 8) * dev.width ≤ 65536) :
    ssd1306_scroll_row_vert (ssd1306_scroll_row_vert dev d) (!d) = dev := by
  cases d with
  | false => exact scroll_up_then_down dev hb hpages hfit
  | true => exact scroll_down_then_up dev hb hpages hfit

/-- C3 (amended): N vertical scroll calls in one direction followed by N
calls in the opposite direction restore the device (frame buffer included)
exactly, for every buffer whose bytes are bytes and every panel of at least
one page whose byte indices fit the `uint16_t` index arithmetic of the C
loops (width * pages <= 65536); without that bound the truncated indices
alias and the round trip fails (see the counterexample). -/
theorem scroll_row_vert_round_trip (dev : ssd1306_t)
    (hb : ∀ i, dev.buff i < 256) (hh : 8 ≤ dev.height)
    (hfit : dev.width * (dev.height / 8) ≤ 65536) (N : Nat) (d : Bool) :
    (fun x => ssd1306_scroll_row_vert x (!d))^[N]
      ((fun x => ssd1306_scroll_row_vert x d)^[N] dev) = dev := by
  have hpages : 0 < dev.height / 8 := by omega
  have hfit' : (dev.height / 8) * dev.width ≤ 65536 := by
    rw [Nat.mul_comm]
    exact hfit
  have hiter : ∀ M : Nat,
      (∀ i, ((fun x => ssd1306_scroll_row_vert x d)^[M] dev).buff i < 256) ∧
      ((fun x => ssd1306_scroll_row_vert x d)^[M] dev).height = dev.height ∧
      ((fun x => ssd1306_scroll_row_vert x d)^[M] dev).width = dev.width := by
    intro M
    induction M with
    | zero => exact ⟨hb, rfl, rfl⟩
    | succ M ihM =>
        rw [Function.iterate_succ_apply']
        exact ⟨scroll_row_vert_bytes _ d ihM.1, ihM.2.1, ihM.2.2⟩
  induction N with
  | zero => rfl
  | succ N ih =>
      rw [Function.iterate_succ_apply' (fun x => ssd1306_scroll_row_vert x d) N
        dev, Function.iterate_succ_apply]
      show (fun x => ssd1306_scroll_row_vert x (!d))^[N]
        (ssd1306_scroll_row_vert (ssd1306_scroll_row_vert
          ((fun x => ssd1306_scroll_row_vert x d)^[N] dev) d) (!d)) = dev
      rw [scroll_row_vert_inv _ d (hiter N).1
        (by rw [(hiter N).2.1]; exact hpages)
        (by rw [(hiter N).2.1, (hiter N).2.2]; exact hfit')]
      exact ih

/-- Witness for `scroll_row_vert_round_trip` on the concrete device `dev_s`
with N = 2 scrolls down and 2 scrolls up. -/
theorem scroll_row_vert_round_trip_witness :
    (∀ i, dev_s.buff i < 256) ∧ 8 ≤ dev_s.height ∧
    dev_s.width * (dev_s.height / 8) ≤ 65536 ∧
    (fun x => ssd1306_scroll_row_vert x (!true))^[2]
      ((fun x => ssd1306_scroll_row_vert x true)^[2] dev_s) = dev_s := by
  have hb : ∀ i, dev_s.buff i < 256 := by
    intro i
    show (if i < 8 then (i + 1) * 17 else 0) < 256
    split <;> omega
  exact ⟨hb, by decide, by decide,
    scroll_row_vert_round_trip dev_s hb (by decide) (by decide) 2 true⟩

/-! ## Popcount invariance of the vertical scroll -/

theorem sum_range_add (f : Nat → Nat) (m : Nat) :
    ∀ n, ∑ i ∈ Finset.range (m + n), f i =
      (∑ i ∈ Finset.range m, f i) + ∑ j ∈ Finset.range n, f (m + j) := by
  intro n
  induction n with
  | zero => simp
  | succ n ih =>
      rw [show m + (n + 1) = (m + n) + 1 from rfl, Finset.sum_range_succ, ih,
        Finset.sum_range_succ, Nat.add_assoc]

theorem sum_range_mul (f : Nat → Nat) (w : Nat) :
    ∀ P, ∑ i ∈ Finset.range (P * w), f i =
      ∑ p ∈ Finset.range P, ∑ c ∈ Finset.range w, f (p * w + c) := by
  intro P
  induction P with
  | zero => simp
  | succ P ih =>
      rw [show (P + 1) * w = P * w + w by ring, sum_range_add, ih,
        Finset.sum_range_succ]

theorem sum_cycle_one (g : Nat → Nat) (P : Nat) :
    ∑ p ∈ Finset.range P, g ((p + 1) % P) = ∑ p ∈ Finset.range P, g p := by
  cases P with
  | zero => simp
  | succ Q =>
      rw [Finset.sum_range_succ, show (Q + 1) % (Q + 1) = 0 from Nat.mod_self _,
        Finset.sum_congr rfl (fun p hp => by
          rw [Nat.mod_eq_of_lt (show p + 1 < Q + 1 by
            have := Finset.mem_range.mp hp; omega)]),
        Finset.sum_range_succ' g Q]

theorem sum_cycle (g : Nat → Nat) (P : Nat) :
    ∀ k, ∑ p ∈ Finset.range P, g ((p + k) % P) = ∑ p ∈ Finset.range P, g p := by
  intro k
  induction k with
  | zero =>
      apply Finset.sum_congr rfl
      intro p hp
      rw [Nat.add_zero, Nat.mod_eq_of_lt (Finset.mem_range.mp hp)]
  | succ k ih =>
      calc ∑ p ∈ Finset.range P, g ((p + (k + 1)) % P)
          = ∑ p ∈ Finset.range P, g (((p + 1) % P + k) % P) := by
            apply Finset.sum_congr rfl
            intro p _
            rw [show p + (k + 1) = (p + 1) + k from by omega, Nat.mod_add_mod]
        _ = ∑ p ∈ Finset.range P, g ((p + k) % P) :=
            sum_cycle_one (fun q => g ((q + k) % P)) P
        _ = ∑ p ∈ Finset.range P, g p := ih

/-- C4: one vertical scroll call, in either direction, leaves the total
number of set bits of the frame buffer unchanged (every column is a pure
rotation of its bit stream). -/
theorem scroll_row_vert_popcount (dev : ssd1306_t)
    (hb : ∀ i, dev.buff i < 256)
    (hsize : dev.buff_size = dev.width * (dev.height / 8))
    (hfit : dev.width * (dev.height / 8) ≤ 65536) (d : Bool) :
    buff_popcount (ssd1306_scroll_row_vert dev d) = buff_popcount dev := by
  have hfit' : (dev.height / 8) * dev.width ≤ 65536 := by
    rw [Nat.mul_comm]
    exact hfit
  unfold buff_popcount
  rw [scroll_row_vert_buff_size, hsize]
  by_cases hP : 0 < dev.height / 8
  · by_cases hw : 0 < dev.width
    · rw [Nat.mul_comm dev.width (dev.height / 8),
        sum_range_mul _ dev.width (dev.height / 8),
        sum_range_mul _ dev.width (dev.height / 8)]
      conv_lhs => rw [Finset.sum_comm]
      conv_rhs => rw [Finset.sum_comm]
      apply Finset.sum_congr rfl
      intro c hc
      have hcw : c < dev.width := Finset.mem_range.mp hc
      rw [Finset.sum_congr rfl (fun p hp => by
        rw [scroll_row_vert_buff dev d hb hP hfit' (p * dev.width + c),
          if_pos ⟨by rw [idx_mod p c hcw]; exact hcw,
            by rw [idx_div p c hw hcw]; exact Finset.mem_range.mp hp⟩])]
      cases d with
      | false =>
          rw [Finset.sum_congr rfl (fun p hp => by
            show popcount (scroll_spec false dev.width (dev.height / 8)
              dev.buff (p * dev.width + c)) = popcount
                ((dev.buff (p * dev.width + c) >>> 1) |||
                  ((dev.buff (((p + 1) % (dev.height / 8)) * dev.width + c) &&&
                    1) * 128))
            unfold scroll_spec
            rw [if_neg Bool.false_ne_true, idx_mod p c hcw,
              idx_div p c hw hcw, lob_eq])]
          have h1 : ∑ p ∈ Finset.range (dev.height / 8),
              (popcount ((dev.buff (p * dev.width + c) >>> 1) |||
                ((dev.buff (((p + 1) % (dev.height / 8)) * dev.width + c) &&&
                  1) * 128)) +
               (dev.buff (p * dev.width + c) &&& 1)) =
              ∑ p ∈ Finset.range (dev.height / 8),
              (popcount (dev.buff (p * dev.width + c)) +
               (dev.buff (((p + 1) % (dev.height / 8)) * dev.width + c) &&& 1)) :=
            Finset.sum_congr rfl (fun p _ =>
              byte_pop_up _ (hb _) _ (lt_of_le_of_lt Nat.and_le_right one_lt_two))
          rw [Finset.sum_add_distrib, Finset.sum_add_distrib,
            sum_cycle_one (fun q => dev.buff (q * dev.width + c) &&& 1)
              (dev.height / 8)] at h1
          exact Nat.add_right_cancel h1
      | true =>
          rw [Finset.sum_congr rfl (fun p hp => by
            show popcount (scroll_spec true dev.width (dev.height / 8)
              dev.buff (p * dev.width + c)) = popcount
                (((dev.buff (p * dev.width + c) <<< 1) % 256) |||
                  hib (dev.buff (((p + (dev.height / 8 - 1)) %
                    (dev.height / 8)) * dev.width + c)))
            unfold scroll_spec
            rw [if_pos rfl, idx_mod p c hcw, idx_div p c hw hcw,
              show p + dev.height / 8 - 1 = p + (dev.height / 8 - 1) by omega])]
          have h1 : ∑ p ∈ Finset.range (dev.height / 8),
              (popcount (((dev.buff (p * dev.width + c) <<< 1) % 256) |||
                hib (dev.buff (((p + (dev.height / 8 - 1)) %
                  (dev.height / 8)) * dev.width + c))) +
               hib (dev.buff (p * dev.width + c))) =
              ∑ p ∈ Finset.range (dev.height / 8),
              (popcount (dev.buff (p * dev.width + c)) +
               hib (dev.buff (((p + (dev.height / 8 - 1)) %
                 (dev.height / 8)) * dev.width + c))) :=
            Finset.sum_congr rfl (fun p _ =>
              byte_pop_down _ (hb _) _ (hib_lt2 _))
          rw [Finset.sum_add_distrib, Finset.sum_add_distrib,
            sum_cycle (fun q => hib (dev.buff (q * dev.width + c)))
              (dev.height / 8) (dev.height / 8 - 1)] at h1
          exact Nat.add_right_cancel h1
    · rw [show dev.width = 0 by omega]
      simp
  · rw [show dev.height / 8 = 0 by omega]
    simp

/-- Witness for `scroll_row_vert_popcount` on the concrete device `dev_s`,
scrolling down. -/
theorem scroll_row_vert_popcount_witness :
    (∀ i, dev_s.buff i < 256) ∧
    dev_s.buff_size = dev_s.width * (dev_s.height / 8) ∧
    dev_s.width * (dev_s.height / 8) ≤ 65536 ∧
    buff_popcount (ssd1306_scroll_row_vert dev_s true) = buff_popcount dev_s := by
  have hb : ∀ i, dev_s.buff i < 256 := by
    intro i
    show (if i < 8 then (i + 1) * 17 else 0) < 256
    split <;> omega
  exact ⟨hb, by decide, by decide,
    scroll_row_vert_popcount dev_s hb (by decide) (by decide) true⟩

/-! ## Index truncation on oversized panels: the vertical scroll is not a
rotation there -/

theorem down_loop_zero (width col : Nat) (b : Nat → Nat) (hz : ∀ i, b i = 0) :
    ∀ n, (down_loop width col b n).1 = 0 ∧
      ∀ i, (down_loop width col b n).2 i = 0 := by
  intro n
  induction n with
  | zero => exact ⟨rfl, hz⟩
  | succ n ih =>
      constructor
      · simp only [down_loop]
        rw [ih.2]
        decide
      · intro i
        simp only [down_loop]
        by_cases hi : i = (n * width + col) % 65536
        · rw [hi, Function.update_same, ih.2, ih.1]
          decide
        · rw [Function.update_noteq hi]
          exact ih.2 i

theorem up_loop_zero (width pages col : Nat) (b : Nat → Nat)
    (hz : ∀ i, b i = 0) :
    ∀ n, (up_loop width pages col b n).1 = 0 ∧
      ∀ i, (up_loop width pages col b n).2 i = 0 := by
  intro n
  induction n with
  | zero => exact ⟨rfl, hz⟩
  | succ n ih =>
      constructor
      · simp only [up_loop]
        rw [ih.2]
        decide
      · intro i
        simp only [up_loop]
        by_cases hi : i = ((pages - 1 - n) * width + col) % 65536
        · rw [hi, Function.update_same, ih.2, ih.1]
          decide
        · rw [Function.update_noteq hi]
          exact ih.2 i

theorem scroll_down_col_zero (width pages col : Nat) (b : Nat → Nat)
    (hz : ∀ i, b i = 0) : ∀ i, scroll_down_col width pages col b i = 0 := by
  intro i
  unfold scroll_down_col
  by_cases hi : i = col
  · rw [hi, Function.update_same, (down_loop_zero width col b hz pages).2,
      (down_loop_zero width col b hz pages).1]
    decide
  · rw [Function.update_noteq hi]
    exact (down_loop_zero width col b hz pages).2 i

theorem scroll_up_col_zero (width pages col : Nat) (b : Nat → Nat)
    (hz : ∀ i, b i = 0) : ∀ i, scroll_up_col width pages col b i = 0 := by
  intro i
  unfold scroll_up_col
  by_cases hi : i = ((((pages : Int) - 1) * width + col) % 65536).toNat
  · rw [hi, Function.update_same, (up_loop_zero width pages col b hz pages).2,
      (up_loop_zero width pages col b hz pages).1]
    decide
  · rw [Function.update_noteq hi]
    exact (up_loop_zero width pages col b hz pages).2 i

/-- A column fold over an all-zero buffer leaves every byte zero. -/
theorem scroll_fold_zero (down : Bool) (width pages : Nat) :
    ∀ (L : List Nat) (b : Nat → Nat), (∀ i, b i = 0) →
    ∀ i, (L.foldl (fun bb col =>
      if down then scroll_down_col width pages col bb
      else scroll_up_col width pages col bb) b) i = 0 := by
  intro L
  induction L with
  | nil => exact fun b hz i => hz i
  | cons c L ih =>
      intro b hz i
      rw [List.foldl_cons]
      refine ih _ (fun j => ?_) i
      cases down with
      | false =>
          show scroll_up_col width pages c b j = 0
          exact scroll_up_col_zero width pages c b hz j
      | true =>
          show scroll_down_col width pages c b j = 0
          exact scroll_down_col_zero width pages c b hz j

/-- Definitional reading of the vertical scroll's buffer as the column
fold. -/
theorem scroll_row_vert_buff_def (dev : ssd1306_t) (down : Bool) :
    (ssd1306_scroll_row_vert dev down).buff =
    (List.range dev.width).foldl (fun b col =>
      if down then scroll_down_col dev.width (dev.height / 8) col b
      else scroll_up_col dev.width (dev.height / 8) col b) dev.buff := rfl

/-- First column of a down scroll of `devX`: page 1's bit shifts out, wraps
through the truncated page-2 index 0 into bit 0 of page 0, and the wrap
line then clears that bit, leaving the column all zero. -/
theorem devX_down_col0 : ∀ i, scroll_down_col 32768 3 0 devX.buff i = 0 := by
  have h3v : (down_loop 32768 0 devX.buff 3).2 =
      Function.update (Function.update (Function.update devX.buff 0 0)
        32768 0) 0 1 := rfl
  have h3c : (down_loop 32768 0 devX.buff 3).1 = 0 := rfl
  intro i
  unfold scroll_down_col
  rw [h3v, h3c]
  by_cases hi : i = 0
  · rw [hi, Function.update_same]
    decide
  · rw [Function.update_noteq hi, Function.update_noteq hi]
    by_cases hj : i = 32768
    · rw [hj, Function.update_same]
    · rw [Function.update_noteq hj, Function.update_noteq hi]
      show (if i = 32768 then (128 : Nat) else 0) = 0
      rw [if_neg hj]

/-- One down scroll of `devX` clears the whole frame buffer: column 0 loses
its only bit to index truncation, and every other column is all zero. -/
theorem devX_scroll_down_zero :
    ∀ i, (ssd1306_scroll_row_vert devX true).buff i = 0 := by
  intro i
  rw [scroll_row_vert_buff_def devX true]
  rw [show devX.width = 32767 + 1 from rfl, List.range_succ_eq_map,
    List.foldl_cons]
  refine scroll_fold_zero true devX.width (devX.height / 8) _ _
    (fun j => ?_) i
  show scroll_down_col devX.width (devX.height / 8) 0 devX.buff j = 0
  exact devX_down_col0 j

/-- C3 counterexample: on the oversized panel `devX` (width 32768, three
pages, a single set bit on page 1), whose bytes are bytes and whose height
is at least one page, one scroll down followed by one scroll up does not
restore the device: the `uint16_t` index truncation aliases page 2 onto
page 0 and the bit is destroyed. -/
theorem scroll_row_vert_round_trip_counterexample :
    (∀ i, devX.buff i < 256) ∧ 8 ≤ devX.height ∧
    (fun x => ssd1306_scroll_row_vert x (!true))^[1]
      ((fun x => ssd1306_scroll_row_vert x true)^[1] devX) ≠ devX := by
  refine ⟨?_, by decide, ?_⟩
  · intro i
    show (if i = 32768 then (128 : Nat) else 0) < 256
    split <;> omega
  · intro h
    have hbuf : ((fun x => ssd1306_scroll_row_vert x (!true))^[1]
        ((fun x => ssd1306_scroll_row_vert x true)^[1] devX)).buff 32768 = 0 := by
      show (ssd1306_scroll_row_vert (ssd1306_scroll_row_vert devX true)
        false).buff 32768 = 0
      rw [scroll_row_vert_buff_def (ssd1306_scroll_row_vert devX true) false]
      exact scroll_fold_zero false (ssd1306_scroll_row_vert devX true).width
        ((ssd1306_scroll_row_vert devX true).height / 8)
        (List.range (ssd1306_scroll_row_vert devX true).width)
        (ssd1306_scroll_row_vert devX true).buff devX_scroll_down_zero 32768
    rw [h] at hbuf
    rw [show devX.buff 32768 = 128 from rfl] at hbuf
    omega

/-- C4 counterexample: the down scroll of the oversized panel `devX` loses
its single set bit to `uint16_t` index truncation, so the total set-bit
count drops from 1 to 0 although `devX` satisfies the byte and size
assumptions of the popcount claim. -/
theorem scroll_row_vert_popcount_counterexample :
    (∀ i, devX.buff i < 256) ∧
    devX.buff_size = devX.width * (devX.height / 8) ∧
    buff_popcount (ssd1306_scroll_row_vert devX true) ≠ buff_popcount devX := by
  refine ⟨?_, by decide, ?_⟩
  · intro i
    show (if i = 32768 then (128 : Nat) else 0) < 256
    split <;> omega
  · have hL : buff_popcount (ssd1306_scroll_row_vert devX true) = 0 := by
      unfold buff_popcount
      rw [show (ssd1306_scroll_row_vert devX true).buff_size = 98304 from rfl]
      refine Finset.sum_eq_zero (fun i _ => ?_)
      rw [devX_scroll_down_zero i]
      rfl
    have hR : buff_popcount devX = 1 := by
      unfold buff_popcount
      have hz : ∀ b ∈ Finset.range 98304, b ≠ 32768 →
          popcount (devX.buff b) = 0 := by
        intro b _ hb
        show popcount (if b = 32768 then (128 : Nat) else 0) = 0
        rw [if_neg hb]
        rfl
      rw [show devX.buff_size = 98304 from rfl,
        Finset.sum_eq_single_of_mem 32768
          (Finset.mem_range.mpr (by norm_num)) hz]
      show popcount (if (32768 : Nat) = 32768 then (128 : Nat) else 0) = 1
      rw [if_pos rfl]
      rfl
    rw [hL, hR]
    omega

/-! ## Image blit at the origin -/

/-- One row of the image blit: pixels of row `j` up to column `n` take the
image's bits, everything else is untouched; the device geometry is
preserved. -/
theorem draw_image_inner (dev : ssd1306_t) (img : ssd1306_image_t) (j : Nat)
    (hj : j < dev.height) (hw : img.width ≤ dev.width) :
    ∀ n, n ≤ img.width → ∀ d : ssd1306_t,
      d.width = dev.width → d.height = dev.height →
      (((List.range n).foldl (fun di i =>
        draw_pixel di (0 + i) (0 + j)
          ((img.data ((i + j * img.width) / 8) >>> (7 - i % 8)) &&& 0x01 != 0))
        d).width = dev.width ∧
      ((List.range n).foldl (fun di i =>
        draw_pixel di (0 + i) (0 + j)
          ((img.data ((i + j * img.width) / 8) >>> (7 - i % 8)) &&& 0x01 != 0))
        d).height = dev.height ∧
      ∀ a b : Nat, a < dev.width →
        getPixel ((List.range n).foldl (fun di i =>
          draw_pixel di (0 + i) (0 + j)
            ((img.data ((i + j * img.width) / 8) >>> (7 - i % 8)) &&& 0x01 != 0))
          d) a b =
        if a < n ∧ b = j then imageBit img a j else getPixel d a b) := by
  intro n
  induction n with
  | zero =>
      intro _ d hdw hdh
      refine ⟨hdw, hdh, ?_⟩
      intro a b _
      simp
  | succ n ih =>
      intro hn d hdw hdh
      obtain ⟨hDw, hDh, hD⟩ := ih (by omega) d hdw hdh
      rw [List.range_succ, List.foldl_append, List.foldl_cons, List.foldl_nil]
      refine ⟨by rw [(draw_pixel_fields _ _ _ _).1]; exact hDw,
        by rw [(draw_pixel_fields _ _ _ _).2.1]; exact hDh, ?_⟩
      intro a b ha
      rw [getPixel_draw_pixel _ (0 + n) (0 + j) _
        (by rw [hDw]; omega) (by rw [hDh]; omega) a b (by rw [hDw]; exact ha)]
      rw [hD a b ha]
      by_cases hb1 : b = j
      · by_cases han : a = n
        · rw [if_pos (show a = 0 + n ∧ b = 0 + j by omega),
            if_pos (show a < n + 1 ∧ b = j from ⟨by omega, hb1⟩)]
          rw [han]
          rfl
        · rw [if_neg (show ¬(a = 0 + n ∧ b = 0 + j) from fun hc => han (by omega))]
          by_cases haln : a < n
          · rw [if_pos ⟨haln, hb1⟩,
              if_pos (show a < n + 1 ∧ b = j from ⟨by omega, hb1⟩)]
          · rw [if_neg (show ¬(a < n ∧ b = j) from fun hc => haln hc.1),
              if_neg (show ¬(a < n + 1 ∧ b = j) from fun hc => haln (by omega))]
      · rw [if_neg (show ¬(a = 0 + n ∧ b = 0 + j) from fun hc => hb1 (by omega)),
          if_neg (show ¬(a < n ∧ b = j) from fun hc => hb1 hc.2),
          if_neg (show ¬(a < n + 1 ∧ b = j) from fun hc => hb1 hc.2)]

/-- Rows [0, m) of the image blit at the origin: every pixel inside the
blitted region equals the source image bit, everything else is untouched. -/
theorem draw_image_origin (dev : ssd1306_t) (img : ssd1306_image_t)
    (hw : img.width ≤ dev.width) (hh : img.height ≤ dev.height) :
    ∀ m, m ≤ img.height →
      (((List.range m).foldl (fun dj j =>
        (List.range img.width).foldl (fun di i =>
          draw_pixel di (0 + i) (0 + j)
            ((img.data ((i + j * img.width) / 8) >>> (7 - i % 8)) &&& 0x01 != 0))
          dj) dev).width = dev.width ∧
      ((List.range m).foldl (fun dj j =>
        (List.range img.width).foldl (fun di i =>
          draw_pixel di (0 + i) (0 + j)
            ((img.data ((i + j * img.width) / 8) >>> (7 - i % 8)) &&& 0x01 != 0))
          dj) dev).height = dev.height ∧
      ∀ a b : Nat, a < dev.width →
        getPixel ((List.range m).foldl (fun dj j =>
          (List.range img.width).foldl (fun di i =>
            draw_pixel di (0 + i) (0 + j)
              ((img.data ((i + j * img.width) / 8) >>> (7 - i % 8)) &&& 0x01 != 0))
            dj) dev) a b =
        if a < img.width ∧ b < m then imageBit img a b else getPixel dev a b) := by
  intro m
  induction m with
  | zero =>
      intro _
      refine ⟨rfl, rfl, ?_⟩
      intro a b _
      simp
  | succ m ih =>
      intro hm
      obtain ⟨hDw, hDh, hD⟩ := ih (by omega)
      rw [List.range_succ, List.foldl_append, List.foldl_cons, List.foldl_nil]
      obtain ⟨hRw, hRh, hR⟩ := draw_image_inner dev img m
        (by omega) hw img.width (le_refl _) _ hDw hDh
      refine ⟨hRw, hRh, ?_⟩
      intro a b ha
      rw [hR a b ha, hD a b ha]
      by_cases hbm : b = m
      · by_cases haw : a < img.width
        · rw [if_pos ⟨haw, hbm⟩, if_pos (show a < img.width ∧ b < m + 1 from
            ⟨haw, by omega⟩), hbm]
        · rw [if_neg (show ¬(a < img.width ∧ b = m) from fun hc => haw hc.1),
            if_neg (show ¬(a < img.width ∧ b < m) from fun hc => haw hc.1),
            if_neg (show ¬(a < img.width ∧ b < m + 1) from fun hc => haw hc.1)]
      · rw [if_neg (show ¬(a < img.width ∧ b = m) from fun hc => hbm hc.2)]
        by_cases hblt : b < m
        · by_cases haw : a < img.width
          · rw [if_pos (show a < img.width ∧ b < m from ⟨haw, hblt⟩),
              if_pos (show a < img.width ∧ b < m + 1 from ⟨haw, by omega⟩)]
          · rw [if_neg (show ¬(a < img.width ∧ b < m) from fun hc => haw hc.1),
              if_neg (show ¬(a < img.width ∧ b < m + 1) from
                fun hc => haw hc.1)]
        · rw [if_neg (show ¬(a < img.width ∧ b < m) from fun hc => hblt hc.2),
            if_neg (show ¬(a < img.width ∧ b < m + 1) from
              fun hc => hblt (by omega))]

/-- C9: for an image no larger than the panel, `ssd1306_draw_image` at
offset (0, 0) makes every frame-buffer pixel inside the image equal the
source image bit at byte `(i + j*width)/8`, bit `7 - (i % 8)`, read back
through the pixel query. -/
theorem draw_image_origin_faithful (dev : ssd1306_t) (img : ssd1306_image_t)
    (hw : img.width ≤ dev.width) (hh : img.height ≤ dev.height)
    (i j : Nat) (hi : i < img.width) (hj : j < img.height) :
    getPixel (ssd1306_draw_image dev 0 0 img) i j = imageBit img i j := by
  have h := (draw_image_origin dev img hw hh img.height (le_refl _)).2.2 i j
    (lt_of_lt_of_le hi hw)
  rw [if_pos ⟨hi, hj⟩] at h
  exact h

/-- Witness for `draw_image_origin_faithful`: the 2 x 2 image `img_w` on
the cleared device `dev_w`, read back at pixel (0, 0). -/
theorem draw_image_origin_faithful_witness :
    (img_w.width ≤ dev_w.width ∧ img_w.height ≤ dev_w.height ∧
      0 < img_w.width ∧ 0 < img_w.height) ∧
    getPixel (ssd1306_draw_image dev_w 0 0 img_w) 0 0 = imageBit img_w 0 0 :=
  ⟨⟨by decide, by decide, by decide, by decide⟩,
    draw_image_origin_faithful dev_w img_w (by decide) (by decide) 0 0
      (by decide) (by decide)⟩

/-! ## Bresenham line: arithmetic helpers -/

theorem wrap16s_eq_self (v : Int) (h1 : -32768 ≤ v) (h2 : v < 32768) :
    wrap16s v = v := by
  unfold wrap16s
  omega

theorem wrap16s_wrap16s_add (a b : Int) :
    wrap16s (wrap16s a + b) = wrap16s (a + b) := by
  unfold wrap16s
  omega

theorem u16_step (v w : Int) : u16 ((u16 v : Int) + w) = u16 (v + w) := by
  unfold u16
  omega

theorem u16_ofNat (n : Nat) (h : n < 65536) : u16 (n : Int) = n := by
  unfold u16
  omega

/-- The uint16 coordinate after `t` unit steps from `x1` toward `x2` meets
`x2` exactly when `t` is the full distance `d`. -/
theorem u16_coord_val (x1 x2 d t : Nat) (sx : Int)
    (hx1 : x1 < 65536) (hx2 : x2 < 65536)
    (hsx : sx = 1 ∧ x2 = x1 + d ∨ sx = -1 ∧ x1 = x2 + d) (ht : t ≤ d) :
    u16 ((x1 : Int) + t * sx) = x2 ↔ t = d := by
  rcases hsx with ⟨rfl, hxe⟩ | ⟨rfl, hxe⟩
  · rw [show (x1 : Int) + t * 1 = ((x1 + t : Nat) : Int) by push_cast; ring,
      u16_ofNat _ (by omega)]
    omega
  · rw [show (x1 : Int) + t * (-1) = ((x1 - t : Nat) : Int) by
      rw [Nat.cast_sub (by omega : t ≤ x1)]; ring,
      u16_ofNat _ (by omega)]
    omega

theorem bres_inv_step_x (dx dy k m : Nat) (hdylt : dy < dx)
    (h1 : 2 * dx * m ≤ 2 * dy * k + dx)
    (h2 : 2 * dy * k + dx < 2 * dx * (m + 1)) :
    (dx + 2 * dx * m ≤ 2 * dy * (k + 1) →
      2 * dx * (m + 1) ≤ 2 * dy * (k + 1) + dx ∧
      2 * dy * (k + 1) + dx < 2 * dx * (m + 2)) ∧
    (¬(dx + 2 * dx * m ≤ 2 * dy * (k + 1)) →
      2 * dx * m ≤ 2 * dy * (k + 1) + dx ∧
      2 * dy * (k + 1) + dx < 2 * dx * (m + 1)) := by
  constructor <;> intro hc <;> constructor <;> nlinarith

theorem bres_final_x (dx dy m : Nat) (hdx : 0 < dx)
    (h1 : 2 * dx * m ≤ 2 * dy * dx + dx)
    (h2 : 2 * dy * dx + dx < 2 * dx * (m + 1)) : m = dy := by
  have e1 : 2 * m ≤ 2 * dy + 1 := Nat.le_of_mul_le_mul_left (by nlinarith) hdx
  have e2 : 2 * dy + 1 < 2 * (m + 1) :=
    Nat.lt_of_mul_lt_mul_left (a := dx) (by nlinarith)
  omega

theorem bres_m_le_x (dx dy k m : Nat) (hdx : 0 < dx) (hk : k ≤ dx)
    (h1 : 2 * dx * m ≤ 2 * dy * k + dx) : m ≤ dy := by
  have e1 : 2 * m ≤ 2 * dy + 1 := Nat.le_of_mul_le_mul_left (by nlinarith) hdx
  omega

theorem bres_range_x (dx dy k m : Nat) (hd16 : dx ≤ 16384) (hy16 : dy ≤ 16384)
    (h1 : 2 * dx * m ≤ 2 * dy * k + dx)
    (h2 : 2 * dy * k + dx < 2 * dx * (m + 1)) :
    -32768 ≤ 2 * (dy : Int) * (k + 1) - dx - 2 * dx * m ∧
    2 * (dy : Int) * (k + 1) - dx - 2 * dx * m < 32768 := by
  have h1' : (2 * dx * m : Int) ≤ 2 * dy * k + dx := by exact_mod_cast h1
  have h2' : (2 * dy * k + dx : Int) < 2 * dx * (m + 1) := by exact_mod_cast h2
  have hd16' : (dx : Int) ≤ 16384 := by exact_mod_cast hd16
  have hy16' : (dy : Int) ≤ 16384 := by exact_mod_cast hy16
  constructor <;> push_cast at h1' h2' <;>
    nlinarith [Int.natCast_nonneg dy, Int.natCast_nonneg dx]

/-- Main loop lemma of the shallow-slope branch: starting anywhere along
the line with the Bresenham invariant in force, the loop eventually hands
`(x2, y2)` to `draw_pixel`. -/
theorem line_loop_x_mem (x1 y1 x2 y2 dx dy : Nat) (sx sy : Int)
    (hx1 : x1 < 65536) (hx2 : x2 < 65536) (hy1 : y1 < 65536) (hy2 : y2 < 65536)
    (hdx16 : dx ≤ 16384) (hdy16 : dy ≤ 16384) (hdylt : dy < dx)
    (hsx : sx = 1 ∧ x2 = x1 + dx ∨ sx = -1 ∧ x1 = x2 + dx)
    (hsy : sy = 1 ∧ y2 = y1 + dy ∨ sy = -1 ∧ y1 = y2 + dy) :
    ∀ r, ∀ k m fuel : Nat, ∀ xcur ycur : Nat, ∀ d : Int,
      k + r = dx → 1 ≤ r → r ≤ fuel → m ≤ dy →
      2 * dx * m ≤ 2 * dy * k + dx →
      2 * dy * k + dx < 2 * dx * (m + 1) →
      xcur = u16 ((x1 : Int) + k * sx) →
      ycur = u16 ((y1 : Int) + m * sy) →
      d = 2 * (dy : Int) * (k + 1) - dx - 2 * dx * m →
      (x2, y2) ∈ line_loop_x x2 (dx : Int) (dy : Int) sx sy fuel xcur ycur d := by
  intro r
  induction r with
  | zero =>
      intro k m fuel xcur ycur d _ h1 _ _ _ _ _ _ _
      omega
  | succ r ih =>
      intro k m fuel xcur ycur d hk _ hfuel hmdy hinv1 hinv2 hxc hyc hd
      subst hxc
      subst hyc
      subst hd
      obtain ⟨f, rfl⟩ : ∃ f, fuel = f + 1 := ⟨fuel - 1, by omega⟩
      have hklt : k < dx := by omega
      have hxne : u16 ((x1 : Int) + k * sx) ≠ x2 := fun hc => by
        have := (u16_coord_val x1 x2 dx k sx hx1 hx2 hsx (by omega)).mp hc
        omega
      have hdx0 : 0 < dx := by omega
      simp only [line_loop_x]
      rw [if_neg hxne]
      have hx1n : u16 ((u16 ((x1 : Int) + k * sx) : Int) + sx) =
          u16 ((x1 : Int) + (k + 1) * sx) := by
        rw [u16_step]
        exact congrArg u16 (by push_cast; ring)
      by_cases hDge : (2 * (dy : Int) * (k + 1) - dx - 2 * dx * m) ≥ 0
      · rw [if_pos hDge, if_pos hDge]
        have hcond : dx + 2 * dx * m ≤ 2 * dy * (k + 1) := by
          have h' : ((dx : Int) + 2 * dx * m ≤ 2 * dy * (k + 1)) := by
            push_cast
            linarith
          exact_mod_cast h'
        obtain ⟨hinv1n, hinv2n⟩ :=
          (bres_inv_step_x dx dy k m hdylt hinv1 hinv2).1 hcond
        have hy1n : u16 ((u16 ((y1 : Int) + m * sy) : Int) + sy) =
            u16 ((y1 : Int) + (m + 1) * sy) := by
          rw [u16_step]
          exact congrArg u16 (by push_cast; ring)
        have hdnew : wrap16s (wrap16s
            (2 * (dy : Int) * (k + 1) - dx - 2 * dx * m - 2 * dx) + 2 * dy) =
            2 * (dy : Int) * (k + 1 + 1) - dx - 2 * dx * (m + 1) := by
          rw [wrap16s_wrap16s_add,
            show 2 * (dy : Int) * (k + 1) - dx - 2 * dx * m - 2 * dx + 2 * dy =
              2 * (dy : Int) * ((k : Int) + 1 + 1) - dx - 2 * dx * ((m : Int) + 1)
              by ring]
          have hr := bres_range_x dx dy (k + 1) (m + 1) hdx16 hdy16 hinv1n hinv2n
          rw [wrap16s_eq_self _ (by push_cast at hr ⊢; linarith [hr.1])
            (by push_cast at hr ⊢; linarith [hr.2])]
        rw [hx1n, hy1n, hdnew]
        rcases Nat.eq_zero_or_pos r with rfl | hr1
        · have hkd : k + 1 = dx := by omega
          rw [hkd] at hinv1n hinv2n
          have hmd : m + 1 = dy := bres_final_x dx dy (m + 1) hdx0 hinv1n hinv2n
          have hkdI : ((k : Int) + 1) = ((dx : Nat) : Int) := by
            exact_mod_cast hkd
          have hmdI : ((m : Int) + 1) = ((dy : Nat) : Int) := by
            exact_mod_cast hmd
          rw [hkdI, hmdI,
            (u16_coord_val x1 x2 dx dx sx hx1 hx2 hsx (le_refl dx)).mpr rfl,
            (u16_coord_val y1 y2 dy dy sy hy1 hy2 hsy (le_refl dy)).mpr rfl]
          exact List.mem_cons_self _ _
        · refine List.mem_cons_of_mem _ (ih (k + 1) (m + 1) f _ _ _
            (by omega) hr1 (by omega) ?_ hinv1n hinv2n ?_ ?_ ?_)
          · exact bres_m_le_x dx dy (k + 1) (m + 1) hdx0 (by omega) hinv1n
          · rfl
          · rfl
          · push_cast
            ring
      · rw [if_neg hDge, if_neg hDge]
        have hcond : ¬(dx + 2 * dx * m ≤ 2 * dy * (k + 1)) := by
          intro hc
          apply hDge
          have h' : ((dx : Int) + 2 * dx * m ≤ 2 * dy * (k + 1)) := by
            exact_mod_cast hc
          push_cast at h'
          linarith
        obtain ⟨hinv1n, hinv2n⟩ :=
          (bres_inv_step_x dx dy k m hdylt hinv1 hinv2).2 hcond
        have hdnew : wrap16s
            (2 * (dy : Int) * (k + 1) - dx - 2 * dx * m + 2 * dy) =
            2 * (dy : Int) * (k + 1 + 1) - dx - 2 * dx * m := by
          rw [show 2 * (dy : Int) * (k + 1) - dx - 2 * dx * m + 2 * dy =
              2 * (dy : Int) * ((k : Int) + 1 + 1) - dx - 2 * dx * (m : Int)
              by ring]
          have hr := bres_range_x dx dy (k + 1) m hdx16 hdy16 hinv1n hinv2n
          rw [wrap16s_eq_self _ (by push_cast at hr ⊢; linarith [hr.1])
            (by push_cast at hr ⊢; linarith [hr.2])]
        rw [hx1n, hdnew]
        rcases Nat.eq_zero_or_pos r with rfl | hr1
        · have hkd : k + 1 = dx := by omega
          rw [hkd] at hinv1n hinv2n
          have hmd : m = dy := bres_final_x dx dy m hdx0 hinv1n hinv2n
          have hkdI : ((k : Int) + 1) = ((dx : Nat) : Int) := by
            exact_mod_cast hkd
          rw [hkdI, (u16_coord_val x1 x2 dx dx sx hx1 hx2 hsx (le_refl dx)).mpr
            rfl]
          rw [show (m : Nat) = dy from hmd,
            (u16_coord_val y1 y2 dy dy sy hy1 hy2 hsy (le_refl dy)).mpr rfl]
          exact List.mem_cons_self _ _
        · refine List.mem_cons_of_mem _ (ih (k + 1) m f _ _ _
            (by omega) hr1 (by omega) hmdy hinv1n hinv2n ?_ ?_ ?_)
          · rfl
          · rfl
          · push_cast
            ring

theorem wrap16s_wrap16s_sub (a b : Int) :
    wrap16s (wrap16s a - b) = wrap16s (a - b) := by
  unfold wrap16s
  omega

theorem bres_inv_step_y (dx dy k m : Nat) (hdxle : dx ≤ dy)
    (h1 : 2 * dy * m ≤ 2 * dx * k + dy)
    (h2 : 2 * dx * k + dy < 2 * dy * (m + 1)) :
    (dy + 2 * dy * m ≤ 2 * dx * (k + 1) →
      2 * dy * (m + 1) ≤ 2 * dx * (k + 1) + dy ∧
      2 * dx * (k + 1) + dy < 2 * dy * (m + 2)) ∧
    (¬(dy + 2 * dy * m ≤ 2 * dx * (k + 1)) →
      2 * dy * m ≤ 2 * dx * (k + 1) + dy ∧
      2 * dx * (k + 1) + dy < 2 * dy * (m + 1)) := by
  constructor <;> intro hc <;> constructor <;> nlinarith

theorem bres_final_y (dx dy m : Nat) (hdy : 0 < dy)
    (h1 : 2 * dy * m ≤ 2 * dx * dy + dy)
    (h2 : 2 * dx * dy + dy < 2 * dy * (m + 1)) : m = dx := by
  have e1 : 2 * m ≤ 2 * dx + 1 := Nat.le_of_mul_le_mul_left (by nlinarith) hdy
  have e2 : 2 * dx + 1 < 2 * (m + 1) :=
    Nat.lt_of_mul_lt_mul_left (a := dy) (by nlinarith)
  omega

theorem bres_m_le_y (dx dy k m : Nat) (hdy : 0 < dy) (hk : k ≤ dy)
    (h1 : 2 * dy * m ≤ 2 * dx * k + dy) : m ≤ dx := by
  have e1 : 2 * m ≤ 2 * dx + 1 := Nat.le_of_mul_le_mul_left (by nlinarith) hdy
  omega

theorem bres_range_y (dx dy k m : Nat) (hd16 : dx ≤ 16384) (hy16 : dy ≤ 16384)
    (h1 : 2 * dy * m ≤ 2 * dx * k + dy)
    (h2 : 2 * dx * k + dy < 2 * dy * (m + 1)) :
    -32768 ≤ (dy : Int) - 2 * dx * (k + 1) + 2 * dy * m ∧
    (dy : Int) - 2 * dx * (k + 1) + 2 * dy * m < 32768 := by
  have h1' : (2 * dy * m : Int) ≤ 2 * dx * k + dy := by exact_mod_cast h1
  have h2' : (2 * dx * k + dy : Int) < 2 * dy * (m + 1) := by exact_mod_cast h2
  have hd16' : (dx : Int) ≤ 16384 := by exact_mod_cast hd16
  have hy16' : (dy : Int) ≤ 16384 := by exact_mod_cast hy16
  constructor
  · push_cast at h2' ⊢
    nlinarith [Int.natCast_nonneg dy, Int.natCast_nonneg dx,
      Int.natCast_nonneg k, Int.natCast_nonneg m]
  · rcases Nat.eq_zero_or_pos dx with hdx0 | hdx0
    · have hcase : dy = 0 ∨ m = 0 := by
        rcases Nat.eq_zero_or_pos dy with h | h
        · exact Or.inl h
        · refine Or.inr ?_
          subst hdx0
          nlinarith
      have hd0 : (dx : Int) = 0 := by exact_mod_cast hdx0
      rcases hcase with h | h
      · have hdy0 : (dy : Int) = 0 := by exact_mod_cast h
        rw [hd0, hdy0]
        nlinarith [Int.natCast_nonneg k, Int.natCast_nonneg m]
      · have hm0 : (m : Int) = 0 := by exact_mod_cast h
        rw [hd0, hm0]
        nlinarith [Int.natCast_nonneg dy, Int.natCast_nonneg k]
    · have hdx0' : (1 : Int) ≤ (dx : Int) := by exact_mod_cast hdx0
      push_cast at h1' ⊢
      nlinarith [Int.natCast_nonneg dy, Int.natCast_nonneg dx,
        Int.natCast_nonneg k, Int.natCast_nonneg m]

/-- Main loop lemma of the steep-slope branch: starting anywhere along the
line with the Bresenham invariant in force, the loop eventually hands
`(x2, y2)` to `draw_pixel`. -/
theorem line_loop_y_mem (x1 y1 x2 y2 dx dy : Nat) (sx sy : Int)
    (hx1 : x1 < 65536) (hx2 : x2 < 65536) (hy1 : y1 < 65536) (hy2 : y2 < 65536)
    (hdx16 : dx ≤ 16384) (hdy16 : dy ≤ 16384) (hdxle : dx ≤ dy)
    (hsx : sx = 1 ∧ x2 = x1 + dx ∨ sx = -1 ∧ x1 = x2 + dx)
    (hsy : sy = 1 ∧ y2 = y1 + dy ∨ sy = -1 ∧ y1 = y2 + dy) :
    ∀ r, ∀ k m fuel : Nat, ∀ xcur ycur : Nat, ∀ d : Int,
      k + r = dy → 1 ≤ r → r ≤ fuel → m ≤ dx →
      2 * dy * m ≤ 2 * dx * k + dy →
      2 * dx * k + dy < 2 * dy * (m + 1) →
      xcur = u16 ((x1 : Int) + m * sx) →
      ycur = u16 ((y1 : Int) + k * sy) →
      d = (dy : Int) - 2 * dx * (k + 1) + 2 * dy * m →
      (x2, y2) ∈ line_loop_y y2 (dx : Int) (dy : Int) sx sy fuel xcur ycur d := by
  intro r
  induction r with
  | zero =>
      intro k m fuel xcur ycur d _ h1 _ _ _ _ _ _ _
      omega
  | succ r ih =>
      intro k m fuel xcur ycur d hk _ hfuel hmdx hinv1 hinv2 hxc hyc hd
      subst hxc
      subst hyc
      subst hd
      obtain ⟨f, rfl⟩ : ∃ f, fuel = f + 1 := ⟨fuel - 1, by omega⟩
      have hklt : k < dy := by omega
      have hyne : u16 ((y1 : Int) + k * sy) ≠ y2 := fun hc => by
        have := (u16_coord_val y1 y2 dy k sy hy1 hy2 hsy (by omega)).mp hc
        omega
      have hdy0 : 0 < dy := by omega
      simp only [line_loop_y]
      rw [if_neg hyne]
      have hy1n : u16 ((u16 ((y1 : Int) + k * sy) : Int) + sy) =
          u16 ((y1 : Int) + (k + 1) * sy) := by
        rw [u16_step]
        exact congrArg u16 (by push_cast; ring)
      by_cases hDle : ((dy : Int) - 2 * dx * (k + 1) + 2 * dy * m) ≤ 0
      · rw [if_pos hDle, if_pos hDle]
        have hcond : dy + 2 * dy * m ≤ 2 * dx * (k + 1) := by
          have h' : ((dy : Int) + 2 * dy * m ≤ 2 * dx * (k + 1)) := by
            push_cast
            linarith
          exact_mod_cast h'
        obtain ⟨hinv1n, hinv2n⟩ :=
          (bres_inv_step_y dx dy k m hdxle hinv1 hinv2).1 hcond
        have hx1n : u16 ((u16 ((x1 : Int) + m * sx) : Int) + sx) =
            u16 ((x1 : Int) + (m + 1) * sx) := by
          rw [u16_step]
          exact congrArg u16 (by push_cast; ring)
        have hdnew : wrap16s (wrap16s
            ((dy : Int) - 2 * dx * (k + 1) + 2 * dy * m + 2 * dy) - 2 * dx) =
            (dy : Int) - 2 * dx * (k + 1 + 1) + 2 * dy * (m + 1) := by
          rw [wrap16s_wrap16s_sub,
            show (dy : Int) - 2 * dx * (k + 1) + 2 * dy * m + 2 * dy - 2 * dx =
              (dy : Int) - 2 * dx * ((k : Int) + 1 + 1) +
                2 * dy * ((m : Int) + 1) by ring]
          have hr := bres_range_y dx dy (k + 1) (m + 1) hdx16 hdy16 hinv1n hinv2n
          rw [wrap16s_eq_self _ (by push_cast at hr ⊢; linarith [hr.1])
            (by push_cast at hr ⊢; linarith [hr.2])]
        rw [hx1n, hy1n, hdnew]
        rcases Nat.eq_zero_or_pos r with rfl | hr1
        · have hkd : k + 1 = dy := by omega
          rw [hkd] at hinv1n hinv2n
          have hmd : m + 1 = dx := bres_final_y dx dy (m + 1) hdy0 hinv1n hinv2n
          have hkdI : ((k : Int) + 1) = ((dy : Nat) : Int) := by
            exact_mod_cast hkd
          have hmdI : ((m : Int) + 1) = ((dx : Nat) : Int) := by
            exact_mod_cast hmd
          rw [hkdI, hmdI,
            (u16_coord_val x1 x2 dx dx sx hx1 hx2 hsx (le_refl dx)).mpr rfl,
            (u16_coord_val y1 y2 dy dy sy hy1 hy2 hsy (le_refl dy)).mpr rfl]
          exact List.mem_cons_self _ _
        · refine List.mem_cons_of_mem _ (ih (k + 1) (m + 1) f _ _ _
            (by omega) hr1 (by omega) ?_ hinv1n hinv2n ?_ ?_ ?_)
          · exact bres_m_le_y dx dy (k + 1) (m + 1) hdy0 (by omega) hinv1n
          · rfl
          · rfl
          · push_cast
            ring
      · rw [if_neg hDle, if_neg hDle]
        have hcond : ¬(dy + 2 * dy * m ≤ 2 * dx * (k + 1)) := by
          intro hc
          apply hDle
          have h' : ((dy : Int) + 2 * dy * m ≤ 2 * dx * (k + 1)) := by
            exact_mod_cast hc
          push_cast at h'
          linarith
        obtain ⟨hinv1n, hinv2n⟩ :=
          (bres_inv_step_y dx dy k m hdxle hinv1 hinv2).2 hcond
        have hdnew : wrap16s
            ((dy : Int) - 2 * dx * (k + 1) + 2 * dy * m - 2 * dx) =
            (dy : Int) - 2 * dx * (k + 1 + 1) + 2 * dy * m := by
          rw [show (dy : Int) - 2 * dx * (k + 1) + 2 * dy * m - 2 * dx =
              (dy : Int) - 2 * dx * ((k : Int) + 1 + 1) + 2 * dy * (m : Int)
              by ring]
          have hr := bres_range_y dx dy (k + 1) m hdx16 hdy16 hinv1n hinv2n
          rw [wrap16s_eq_self _ (by push_cast at hr ⊢; linarith [hr.1])
            (by push_cast at hr ⊢; linarith [hr.2])]
        rw [hy1n, hdnew]
        rcases Nat.eq_zero_or_pos r with rfl | hr1
        · have hkd : k + 1 = dy := by omega
          rw [hkd] at hinv1n hinv2n
          have hmd : m = dx := bres_final_y dx dy m hdy0 hinv1n hinv2n
          have hkdI : ((k : Int) + 1) = ((dy : Nat) : Int) := by
            exact_mod_cast hkd
          rw [hkdI, (u16_coord_val y1 y2 dy dy sy hy1 hy2 hsy (le_refl dy)).mpr
            rfl]
          rw [show (m : Nat) = dx from hmd,
            (u16_coord_val x1 x2 dx dx sx hx1 hx2 hsx (le_refl dx)).mpr rfl]
          exact List.mem_cons_self _ _
        · refine List.mem_cons_of_mem _ (ih (k + 1) m f _ _ _
            (by omega) hr1 (by omega) hmdx hinv1n hinv2n ?_ ?_ ?_)
          · rfl
          · rfl
          · push_cast
            ring

/-- Dispatch of `ssd1306_draw_line` onto its two loop branches: with the
differences small enough that no `int16_t` store wraps, the final pixel
`(x2, y2)` is always handed to `draw_pixel`. -/
theorem draw_line_core (x1 y1 x2 y2 : Nat) (dx0 dy0 dxv dyv sxv syv : Int)
    (hx1 : x1 < 65536) (hx2 : x2 < 65536) (hy1 : y1 < 65536) (hy2 : y2 < 65536)
    (hdx0 : dx0 = (x2 : Int) - (x1 : Int)) (hdy0 : dy0 = (y2 : Int) - (y1 : Int))
    (hdxa : ((x2 : Int) - (x1 : Int)).natAbs ≤ 16384)
    (hdya : ((y2 : Int) - (y1 : Int)).natAbs ≤ 16384)
    (hdxv : dxv = if dx0 < 0 then wrap16s (-dx0) else dx0)
    (hdyv : dyv = if dy0 < 0 then wrap16s (-dy0) else dy0)
    (hsxv : sxv = if dx0 < 0 then (-1 : Int) else 1)
    (hsyv : syv = if dy0 < 0 then (-1 : Int) else 1) :
    (x2, y2) ∈ (x1, y1) ::
      (if dyv < dxv then
        line_loop_x x2 dxv dyv sxv syv 65536 x1 y1 (wrap16s (dyv * 2 - dxv))
      else
        line_loop_y y2 dxv dyv sxv syv 65536 x1 y1
          (wrap16s (dyv - dxv * 2))) := by
  subst hdx0
  subst hdy0
  by_cases hdeg : x2 = x1 ∧ y2 = y1
  · rcases hdeg with ⟨h1, h2⟩
    subst h1
    subst h2
    exact List.mem_cons_self _ _
  · have hdxvN : dxv = ((((x2 : Int) - (x1 : Int)).natAbs : Nat) : Int) := by
      rw [hdxv]
      by_cases h : ((x2 : Int) - (x1 : Int)) < 0
      · rw [if_pos h, wrap16s_eq_self _ (by omega) (by omega)]
        omega
      · rw [if_neg h]
        omega
    have hdyvN : dyv = ((((y2 : Int) - (y1 : Int)).natAbs : Nat) : Int) := by
      rw [hdyv]
      by_cases h : ((y2 : Int) - (y1 : Int)) < 0
      · rw [if_pos h, wrap16s_eq_self _ (by omega) (by omega)]
        omega
      · rw [if_neg h]
        omega
    have hsxprop : sxv = 1 ∧ x2 = x1 + ((x2 : Int) - (x1 : Int)).natAbs ∨
        sxv = -1 ∧ x1 = x2 + ((x2 : Int) - (x1 : Int)).natAbs := by
      rw [hsxv]
      by_cases h : ((x2 : Int) - (x1 : Int)) < 0
      · rw [if_pos h]
        exact Or.inr ⟨rfl, by omega⟩
      · rw [if_neg h]
        exact Or.inl ⟨rfl, by omega⟩
    have hsyprop : syv = 1 ∧ y2 = y1 + ((y2 : Int) - (y1 : Int)).natAbs ∨
        syv = -1 ∧ y1 = y2 + ((y2 : Int) - (y1 : Int)).natAbs := by
      rw [hsyv]
      by_cases h : ((y2 : Int) - (y1 : Int)) < 0
      · rw [if_pos h]
        exact Or.inr ⟨rfl, by omega⟩
      · rw [if_neg h]
        exact Or.inl ⟨rfl, by omega⟩
    subst hdxvN
    subst hdyvN
    by_cases hlt :
        ((y2 : Int) - (y1 : Int)).natAbs < ((x2 : Int) - (x1 : Int)).natAbs
    · have hc : ((((y2 : Int) - (y1 : Int)).natAbs : Nat) : Int) <
          ((((x2 : Int) - (x1 : Int)).natAbs : Nat) : Int) := by
        exact_mod_cast hlt
      rw [if_pos hc]
      refine List.mem_cons_of_mem _ ?_
      refine line_loop_x_mem x1 y1 x2 y2 (((x2 : Int) - (x1 : Int)).natAbs)
        (((y2 : Int) - (y1 : Int)).natAbs) sxv syv hx1 hx2 hy1 hy2 hdxa hdya
        hlt hsxprop hsyprop (((x2 : Int) - (x1 : Int)).natAbs) 0 0 65536 x1 y1
        _ ?_ ?_ ?_ ?_ ?_ ?_ ?_ ?_ ?_
      · omega
      · omega
      · omega
      · exact Nat.zero_le _
      · omega
      · omega
      · rw [Nat.cast_zero, zero_mul, add_zero, u16_ofNat x1 hx1]
      · rw [Nat.cast_zero, zero_mul, add_zero, u16_ofNat y1 hy1]
      · rw [wrap16s_eq_self _ (by omega) (by omega)]
        push_cast
        ring
    · have hle : ((x2 : Int) - (x1 : Int)).natAbs ≤
          ((y2 : Int) - (y1 : Int)).natAbs := Nat.le_of_not_lt hlt
      have hc : ¬(((((y2 : Int) - (y1 : Int)).natAbs : Nat) : Int) <
          ((((x2 : Int) - (x1 : Int)).natAbs : Nat) : Int)) := by
        intro hcc
        exact hlt (by exact_mod_cast hcc)
      rw [if_neg hc]
      have hdypos : 0 < ((y2 : Int) - (y1 : Int)).natAbs := by
        rcases Nat.eq_zero_or_pos (((y2 : Int) - (y1 : Int)).natAbs) with h | h
        · exact absurd ⟨by omega, by omega⟩ hdeg
        · exact h
      refine List.mem_cons_of_mem _ ?_
      refine line_loop_y_mem x1 y1 x2 y2 (((x2 : Int) - (x1 : Int)).natAbs)
        (((y2 : Int) - (y1 : Int)).natAbs) sxv syv hx1 hx2 hy1 hy2 hdxa hdya
        hle hsxprop hsyprop (((y2 : Int) - (y1 : Int)).natAbs) 0 0 65536 x1 y1
        _ ?_ ?_ ?_ ?_ ?_ ?_ ?_ ?_ ?_
      · omega
      · omega
      · omega
      · exact Nat.zero_le _
      · omega
      · omega
      · rw [Nat.cast_zero, zero_mul, add_zero, u16_ofNat x1 hx1]
      · rw [Nat.cast_zero, zero_mul, add_zero, u16_ofNat y1 hy1]
      · rw [wrap16s_eq_self _ (by omega) (by omega)]
        push_cast
        ring

/-- C5 counterexample: the plotted pixel set of `ssd1306_draw_line` is not
symmetric in the endpoints — the line (0,0)→(2,1) plots (1,1) while the
reversed line (2,1)→(0,0) does not — and an endpoint can be missed
entirely: the `int16_t` store of the difference 32768 wraps to -32768, so
the line (0,0)→(32768,0) never plots (32768,0). -/
theorem draw_line_endpoints_counterexample :
    ((1, 1) ∈ ssd1306_draw_line_plots 0 0 2 1 ∧
      (1, 1) ∉ ssd1306_draw_line_plots 2 1 0 0) ∧
    (32768, 0) ∉ ssd1306_draw_line_plots 0 0 32768 0 := by
  decide

/-- C5 (amended): whenever both coordinate differences have magnitude at
most 16384 (so that no `int16_t` computation in `ssd1306_draw_line`
wraps), the call plots both endpoint pixels `(x1, y1)` and `(x2, y2)`;
the claimed endpoint-order symmetry of the plotted set is dropped, as it
fails (see the counterexample). -/
theorem draw_line_endpoints (x1 y1 x2 y2 : Nat)
    (hx1 : x1 < 65536) (hy1 : y1 < 65536) (hx2 : x2 < 65536) (hy2 : y2 < 65536)
    (hdxa : ((x2 : Int) - (x1 : Int)).natAbs ≤ 16384)
    (hdya : ((y2 : Int) - (y1 : Int)).natAbs ≤ 16384) :
    (x1, y1) ∈ ssd1306_draw_line_plots x1 y1 x2 y2 ∧
    (x2, y2) ∈ ssd1306_draw_line_plots x1 y1 x2 y2 := by
  constructor
  · exact List.mem_cons_self _ _
  · exact draw_line_core x1 y1 x2 y2 (wrap16s ((x2 : Int) - (x1 : Int)))
      (wrap16s ((y2 : Int) - (y1 : Int))) _ _ _ _ hx1 hx2 hy1 hy2
      (wrap16s_eq_self _ (by omega) (by omega))
      (wrap16s_eq_self _ (by omega) (by omega)) hdxa hdya rfl rfl rfl rfl

/-- Witness for C5 at the concrete line (0,0)→(3,2). -/
theorem draw_line_endpoints_witness :
    ((0 : Nat) < 65536 ∧ (0 : Nat) < 65536 ∧ (3 : Nat) < 65536 ∧
      (2 : Nat) < 65536 ∧ (((3 : Nat) : Int) - ((0 : Nat) : Int)).natAbs ≤ 16384 ∧
      (((2 : Nat) : Int) - ((0 : Nat) : Int)).natAbs ≤ 16384) ∧
    ((0, 0) ∈ ssd1306_draw_line_plots 0 0 3 2 ∧
      (3, 2) ∈ ssd1306_draw_line_plots 0 0 3 2) :=
  ⟨⟨by decide, by decide, by decide, by decide, by decide, by decide⟩,
    draw_line_endpoints 0 0 3 2 (by decide) (by decide) (by decide) (by decide)
      (by decide) (by decide)⟩
